import Mathlib

/-!
Verification development for the `@synet/did` library.

JavaScript strings are modelled as lists of Unicode scalar values
(`List Char`); thrown exceptions are modelled with `Except JSErr`.
The DID URL regex is embedded as the deterministic parser it denotes
(all its character classes are disjoint from the delimiters, so the
regex never backtracks into an earlier group).
-/

namespace DID

abbrev JStr := List Char

def str (s : String) : JStr := s.data

/-- Single quote character (code point 39), kept out of string literals. -/
def sq : Char := Char.ofNat 39

/-- Backslash character (code point 92). -/
def bsl : Char := Char.ofNat 92

/-! ## Character classes (from the source regexes, via code points) -/

def isLowerCh (c : Char) : Bool := 97 ≤ c.toNat && c.toNat ≤ 122

def isUpperCh (c : Char) : Bool := 65 ≤ c.toNat && c.toNat ≤ 90

def isDigitCh (c : Char) : Bool := 48 ≤ c.toNat && c.toNat ≤ 57

/-- Class `[a-z0-9]` used for DID method names. -/
def isMethodCh (c : Char) : Bool := isLowerCh c || isDigitCh c

/-- Class `[^/?#]` used for DID identifiers. -/
def isIdCh (c : Char) : Bool := !(c.toNat == 47 || c.toNat == 63 || c.toNat == 35)

/-- Class `[^?#]` used for DID paths. -/
def isPathCh (c : Char) : Bool := !(c.toNat == 63 || c.toNat == 35)

/-- Class `[^#]` used for DID queries. -/
def isQueryCh (c : Char) : Bool := !(c.toNat == 35)

/-- JavaScript line terminators, which `.` does not match. -/
def isLineTerm (c : Char) : Bool :=
  c.toNat == 10 || c.toNat == 13 || c.toNat == 0x2028 || c.toNat == 0x2029

/-- JavaScript whitespace (the class `\s`, also what `String.prototype.trim` strips). -/
def isJSWs (c : Char) : Bool :=
  c.toNat == 32 || c.toNat == 9 || c.toNat == 10 || c.toNat == 11 || c.toNat == 12 ||
  c.toNat == 13 || c.toNat == 0xA0 || c.toNat == 0x1680 ||
  (0x2000 ≤ c.toNat && c.toNat ≤ 0x200A) ||
  c.toNat == 0x2028 || c.toNat == 0x2029 || c.toNat == 0x202F ||
  c.toNat == 0x205F || c.toNat == 0x3000 || c.toNat == 0xFEFF

/-- `String.prototype.trim`. -/
def jsTrim (s : JStr) : JStr :=
  ((s.dropWhile isJSWs).reverse.dropWhile isJSWs).reverse

/-! ## The DID URL regex
`/^did:([a-z][a-z0-9]*):([^\/?#]+)(?:\/([^?#]*))?(?:\?([^#]*))?(?:#(.*))?$/`
embedded as the deterministic parser it denotes. -/

structure RawGroups where
  method : JStr
  identifier : JStr
  path : Option JStr
  query : Option JStr
  fragment : Option JStr
deriving DecidableEq

def matchTail3 (m id : JStr) (p q : Option JStr) (r5 : JStr) : Option RawGroups :=
  match r5 with
  | [] => some ⟨m, id, p, q, none⟩
  | '#' :: t => if t.any isLineTerm then none else some ⟨m, id, p, q, some t⟩
  | _ => none

def matchTail2 (m id : JStr) (p : Option JStr) (r4 : JStr) : Option RawGroups :=
  match r4 with
  | '?' :: t => matchTail3 m id p (some (t.takeWhile isQueryCh)) (t.dropWhile isQueryCh)
  | _ => matchTail3 m id p none r4

def matchTail1 (m id : JStr) (r3 : JStr) : Option RawGroups :=
  match r3 with
  | '/' :: t => matchTail2 m id (some (t.takeWhile isPathCh)) (t.dropWhile isPathCh)
  | _ => matchTail2 m id none r3

def matchIdPart (m : JStr) (r2 : JStr) : Option RawGroups :=
  let id := r2.takeWhile isIdCh
  if id = [] then none
  else matchTail1 m id (r2.dropWhile isIdCh)

def matchMethodSplit (m r1 : JStr) : Option RawGroups :=
  match r1 with
  | ':' :: r2 => matchIdPart m r2
  | _ => none

def matchAfterScheme (rest : JStr) : Option RawGroups :=
  match rest with
  | [] => none
  | c :: _ =>
    if isLowerCh c then
      matchMethodSplit (rest.takeWhile isMethodCh) (rest.dropWhile isMethodCh)
    else none

def matchDID (s : JStr) : Option RawGroups :=
  match s with
  | 'd' :: 'i' :: 'd' :: ':' :: rest => matchAfterScheme rest
  | _ => none

/-! ## encodeURIComponent / decodeURIComponent -/

def hexValCh (c : Char) : Option Nat :=
  if 48 ≤ c.toNat && c.toNat ≤ 57 then some (c.toNat - 48)
  else if 65 ≤ c.toNat && c.toNat ≤ 70 then some (c.toNat - 55)
  else if 97 ≤ c.toNat && c.toNat ≤ 102 then some (c.toNat - 87)
  else none

def hexDigitUpper (n : Nat) : Char :=
  if n < 10 then Char.ofNat (48 + n) else Char.ofNat (55 + n)

/-- Percent-escape of one byte, uppercase hex (what `encodeURIComponent` emits). -/
def pctByte (b : Nat) : JStr := ['%', hexDigitUpper (b / 16), hexDigitUpper (b % 16)]

/-- UTF-8 bytes of one scalar value. -/
def utf8Bytes (c : Char) : List Nat :=
  let v := c.toNat
  if v < 0x80 then [v]
  else if v < 0x800 then [0xC0 + v / 64, 0x80 + v % 64]
  else if v < 0x10000 then [0xE0 + v / 4096, 0x80 + v / 64 % 64, 0x80 + v % 64]
  else [0xF0 + v / 262144, 0x80 + v / 4096 % 64, 0x80 + v / 64 % 64, 0x80 + v % 64]

/-- The characters `encodeURIComponent` leaves unescaped. -/
def isUnreservedURI (c : Char) : Bool :=
  isLowerCh c || isUpperCh c || isDigitCh c ||
  c.toNat == 45 || c.toNat == 95 || c.toNat == 46 || c.toNat == 33 ||
  c.toNat == 126 || c.toNat == 42 || c.toNat == 39 || c.toNat == 40 || c.toNat == 41

def encChar (c : Char) : JStr :=
  if isUnreservedURI c then [c]
  else ((utf8Bytes c).map pctByte).flatten

def encodeURIComponent : JStr → JStr
  | [] => []
  | c :: r => encChar c ++ encodeURIComponent r

/-- Read one `%XX` escape. -/
def readPct (s : JStr) : Option (Nat × JStr) :=
  match s with
  | '%' :: h1 :: h2 :: t =>
    match hexValCh h1, hexValCh h2 with
    | some a, some b => some (16 * a + b, t)
    | _, _ => none
  | _ => none

def contByte (b : Nat) : Bool := 0x80 ≤ b && b ≤ 0xBF

/-- Decode the remaining escapes of one UTF-8 sequence whose leading byte is `b1`,
following the strict UTF-8 validation `decodeURIComponent` performs
(no overlong forms, no surrogates, nothing above U+10FFFF). -/
def decodeSeq (b1 : Nat) (t : JStr) : Option (Nat × JStr) :=
  if b1 < 0x80 then some (b1, t)
  else if 0xC2 ≤ b1 ∧ b1 ≤ 0xDF then
    (readPct t).bind fun bt =>
      if contByte bt.1 then some ((b1 - 0xC0) * 64 + (bt.1 - 0x80), bt.2) else none
  else if 0xE0 ≤ b1 ∧ b1 ≤ 0xEF then
    (readPct t).bind fun bt =>
      if (if b1 = 0xE0 then 0xA0 else 0x80) ≤ bt.1 ∧
          bt.1 ≤ (if b1 = 0xED then 0x9F else 0xBF) then
        (readPct bt.2).bind fun ct =>
          if contByte ct.1 then
            some ((b1 - 0xE0) * 4096 + (bt.1 - 0x80) * 64 + (ct.1 - 0x80), ct.2)
          else none
      else none
  else if 0xF0 ≤ b1 ∧ b1 ≤ 0xF4 then
    (readPct t).bind fun bt =>
      if (if b1 = 0xF0 then 0x90 else 0x80) ≤ bt.1 ∧
          bt.1 ≤ (if b1 = 0xF4 then 0x8F else 0xBF) then
        (readPct bt.2).bind fun ct =>
          if contByte ct.1 then
            (readPct ct.2).bind fun dt =>
              if contByte dt.1 then
                some ((b1 - 0xF0) * 262144 + (bt.1 - 0x80) * 4096 +
                      (ct.1 - 0x80) * 64 + (dt.1 - 0x80), dt.2)
              else none
          else none
      else none
  else none

def decodeLoop : Nat → JStr → Option JStr
  | _, [] => some []
  | 0, _ :: _ => none
  | f + 1, c :: t =>
    if c = '%' then
      match readPct (c :: t) with
      | none => none
      | some (b1, t1) =>
        match decodeSeq b1 t1 with
        | none => none
        | some (v, t2) =>
          match decodeLoop f t2 with
          | none => none
          | some r => some (Char.ofNat v :: r)
    else
      match decodeLoop f t with
      | none => none
      | some r => some (c :: r)

/-- `decodeURIComponent`; `none` models a thrown `URIError`. -/
def decodeURIComponent (s : JStr) : Option JStr := decodeLoop s.length s

/-! ## Split / join helpers (`String.prototype.split` on one character, `join`) -/

def splitOnCh (sep : Char) : JStr → List JStr
  | [] => [[]]
  | c :: t =>
    if c = sep then [] :: splitOnCh sep t
    else
      match splitOnCh sep t with
      | h :: r => (c :: h) :: r
      | [] => [[c]]

def joinWith (sep : Char) : List JStr → JStr
  | [] => []
  | [x] => x
  | x :: y :: r => x ++ sep :: joinWith sep (y :: r)

/-! ## Error model and result types -/

inductive JSErr where
  | didErr : JStr → JSErr
  | uriErr : JSErr
deriving DecidableEq

instance exceptDecEq {ε α : Type} [DecidableEq ε] [DecidableEq α] :
    DecidableEq (Except ε α) := fun x y =>
  match x, y with
  | .ok a, .ok b =>
    if h : a = b then isTrue (by rw [h]) else isFalse (by simp [h])
  | .error a, .error b =>
    if h : a = b then isTrue (by rw [h]) else isFalse (by simp [h])
  | .ok _, .error _ => isFalse (by simp)
  | .error _, .ok _ => isFalse (by simp)

structure DIDComponents where
  method : JStr
  identifier : JStr
  path : Option JStr
  query : Option (List (JStr × JStr))
  fragment : Option JStr
deriving DecidableEq

structure DIDParseResult where
  did : JStr
  components : DIDComponents
  isValid : Bool
  error : Option JStr
deriving DecidableEq

structure DIDValidationResult where
  isValid : Bool
  error : Option JStr
  warnings : Option (List JStr)
deriving DecidableEq

/-! ## parseDID -/

/-- Assignment `queryParams[k] = v`: overwrite in place, else append. -/
def upsert (k v : JStr) : List (JStr × JStr) → List (JStr × JStr)
  | [] => [(k, v)]
  | (k2, v2) :: t => if k2 = k then (k2, v) :: t else (k2, v2) :: upsert k v t

/-- One iteration of the query-pair loop in `parseDID`. -/
def parsePair (acc : List (JStr × JStr)) (pair : JStr) : Except JSErr (List (JStr × JStr)) :=
  let parts := splitOnCh '=' pair
  let key := parts.headD []
  if key = [] then .ok acc
  else
    match decodeURIComponent key with
    | none => .error .uriErr
    | some dk =>
      match parts[1]? with
      | none => .ok (upsert dk [] acc)
      | some v =>
        if v = [] then .ok (upsert dk [] acc)
        else
          match decodeURIComponent v with
          | none => .error .uriErr
          | some dv => .ok (upsert dk dv acc)

def parsePairs : List (JStr × JStr) → List JStr → Except JSErr (List (JStr × JStr))
  | acc, [] => .ok acc
  | acc, p :: rest =>
    match parsePair acc p with
    | .error e => .error e
    | .ok acc2 => parsePairs acc2 rest

/-- The `if (query) { ... }` block of `parseDID`. -/
def parseQueryParams : Option JStr → Except JSErr (List (JStr × JStr))
  | none => .ok []
  | some q => if q = [] then .ok [] else parsePairs [] (splitOnCh '&' q)

/-- Models `x || undefined` on an optional string group. -/
def optNonempty : Option JStr → Option JStr
  | none => none
  | some l => if l = [] then none else some l

def emptyComponents : DIDComponents := ⟨str "key", [], none, none, none⟩

def parseDID (did : JStr) : Except JSErr DIDParseResult :=
  if did = [] then
    .ok ⟨did, emptyComponents, false, some (str "DID must be a non-empty string")⟩
  else
    let trimmed := jsTrim did
    if trimmed = [] then
      .ok ⟨trimmed, emptyComponents, false, some (str "Empty DID string is invalid")⟩
    else
      match matchDID trimmed with
      | none =>
        .ok ⟨trimmed, emptyComponents, false,
          some (str "Invalid DID format - must match scheme:method:identifier pattern")⟩
      | some g =>
        if g.method = [] ∨ g.identifier = [] then
          .ok ⟨trimmed, emptyComponents, false,
            some (str "DID method and identifier cannot be empty")⟩
        else
          match parseQueryParams g.query with
          | .error e => .error e
          | .ok qlist =>
            .ok ⟨trimmed,
              ⟨g.method, g.identifier, optNonempty g.path,
               (if qlist = [] then none else some qlist), optNonempty g.fragment⟩,
              true, none⟩

/-! ## validateDID -/

/-- The characters `/[\s!@#$%^&*()+=\[\]{}|\\:";'<>?,.\/]/` rejected in did:key identifiers. -/
def isBadKeyCh (c : Char) : Bool :=
  isJSWs c ||
  c.toNat == 33 || c.toNat == 64 || c.toNat == 35 || c.toNat == 36 || c.toNat == 37 ||
  c.toNat == 94 || c.toNat == 38 || c.toNat == 42 || c.toNat == 40 || c.toNat == 41 ||
  c.toNat == 43 || c.toNat == 61 || c.toNat == 91 || c.toNat == 93 || c.toNat == 123 ||
  c.toNat == 125 || c.toNat == 124 || c.toNat == 92 || c.toNat == 58 || c.toNat == 34 ||
  c.toNat == 59 || c.toNat == 39 || c.toNat == 60 || c.toNat == 62 || c.toNat == 63 ||
  c.toNat == 44 || c.toNat == 46 || c.toNat == 47

/-- The check `/^[a-z][a-z0-9]*$/.test(method)`. -/
def methodFormat : JStr → Bool
  | [] => false
  | c :: r => isLowerCh c && r.all isMethodCh

def supportedMethod (m : JStr) : Bool := m = str "key" || m = str "web"

def keyIdentifierOk (id : JStr) : Option JStr :=
  if id = [] then some (str "Empty did:key identifier")
  else if id.any isBadKeyCh then some (str "Invalid did:key identifier format")
  else if ¬ id.headD ' ' = 'z' then some (str "Invalid did:key identifier format")
  else if id.length < 10 then some (str "Invalid did:key identifier format")
  else none

def validateDID (did : JStr) : Except JSErr DIDValidationResult :=
  match parseDID did with
  | .error e => .error e
  | .ok pr =>
    if pr.isValid = false then .ok ⟨false, pr.error, none⟩
    else
      let c := pr.components
      if ¬ supportedMethod c.method then
        if methodFormat c.method then
          .ok ⟨true, none,
            some [str "Method " ++ sq :: c.method ++ sq :: str " is not officially supported"]⟩
        else
          .ok ⟨false, some (str "Invalid DID method name: " ++ sq :: c.method ++ [sq]), none⟩
      else
        if c.method = str "key" then
          match keyIdentifierOk c.identifier with
          | some e => .ok ⟨false, some e, none⟩
          | none => .ok ⟨true, none, none⟩
        else
          if ¬ c.identifier.contains '.' then
            .ok ⟨false, some (str "did:web identifier must be a valid domain name"), none⟩
          else .ok ⟨true, none, none⟩

/-! ## isDID (separate implementation in the source) -/

def isDID (did : JStr) : Bool :=
  if did = [] then false
  else
    match matchDID (jsTrim did) with
    | none => false
    | some g =>
      if g.method = [] ∨ g.identifier = [] then false
      else
        if ¬ supportedMethod g.method then methodFormat g.method
        else
          if g.method = str "key" then
            (g.identifier.headD ' ' = 'z' : Bool) &&
            !(g.identifier.any isBadKeyCh) &&
            !(g.identifier.length < 10)
          else
            g.identifier.contains '.'

/-! ## createDIDURL / normalizeDID -/

def serializeQuery (q : List (JStr × JStr)) : JStr :=
  joinWith '&' (q.map fun kv => encodeURIComponent kv.1 ++ '=' :: encodeURIComponent kv.2)

def createDIDURL (c : DIDComponents) : JStr :=
  str "did:" ++ c.method ++ ':' :: c.identifier ++
  (match c.path with
   | some p => if p = [] then [] else '/' :: p
   | none => []) ++
  (match c.query with
   | some q => '?' :: serializeQuery q
   | none => []) ++
  (match c.fragment with
   | some f => if f = [] then [] else '#' :: f
   | none => [])

def normalizeDID (did : JStr) : Except JSErr JStr :=
  match parseDID did with
  | .error e => .error e
  | .ok r =>
    if r.isValid then .ok (createDIDURL r.components)
    else .error (.didErr (str "Cannot normalize invalid DID: " ++ r.error.getD []))

/-! ## extractMethod / extractIdentifier (their own regexes, no trim) -/

def extractMethod (did : JStr) : Option JStr :=
  match did with
  | 'd' :: 'i' :: 'd' :: ':' :: rest =>
    let m := rest.takeWhile isMethodCh
    if m = [] then none
    else
      match rest.dropWhile isMethodCh with
      | ':' :: _ => some m
      | _ => none
  | _ => none

def extractIdentifier (did : JStr) : Option JStr :=
  match did with
  | 'd' :: 'i' :: 'd' :: ':' :: rest =>
    let m := rest.takeWhile isMethodCh
    if m = [] then none
    else
      match rest.dropWhile isMethodCh with
      | ':' :: r2 =>
        let id := r2.takeWhile isIdCh
        if id = [] then none else some id
      | _ => none
  | _ => none

/-! ## create.ts: the did:key encoding pipeline -/

inductive KeyType where
  | ed25519
  | secp256k1
  | x25519
deriving DecidableEq

def MULTICODEC_CODES : KeyType → Nat
  | .ed25519 => 0xed
  | .secp256k1 => 0xe7
  | .x25519 => 0xec

def keyTypeName : KeyType → JStr
  | .ed25519 => str "ed25519-pub"
  | .secp256k1 => str "secp256k1-pub"
  | .x25519 => str "x25519-pub"

def BASE58_ALPHABET : JStr :=
  str "123456789ABCDEFGHJKLMNPQRSTUVWXYZabcdefghijkmnopqrstuvwxyz"

/-- Big-endian byte list to natural number (`value = value * 256n + byte`). -/
def bytesToNat (bytes : List Nat) : Nat := bytes.foldl (fun a b => a * 256 + b) 0

/-- Digits of `v` in base 58, most significant first (the divide-and-unshift loop). -/
def base58Digits : Nat → Nat → List Nat
  | 0, _ => []
  | _ + 1, 0 => []
  | f + 1, v => base58Digits f (v / 58) ++ [v % 58]

def encodeBase58 (bytes : List Nat) : JStr :=
  if bytes = [] then []
  else
    (bytes.takeWhile (fun b => b == 0)).map (fun _ => '1') ++
    (base58Digits (2 * bytes.length + 1) (bytesToNat bytes)).map
      (fun d => BASE58_ALPHABET.getD d ' ')

/-- Unsigned LEB128 loop; `>>>` works on 32-bit values so five bytes always suffice. -/
def encodeVarintLoop : Nat → Nat → List Nat
  | 0, _ => []
  | f + 1, v =>
    if 0x80 ≤ v then (v % 0x80 + 0x80) :: encodeVarintLoop f (v / 0x80)
    else [v]

def encodeVarint (v : Nat) : List Nat := encodeVarintLoop 5 v

def encodeMultibase (keyBytes : List Nat) (kt : KeyType) : JStr :=
  'z' :: encodeBase58 (encodeVarint (MULTICODEC_CODES kt) ++ keyBytes)

def isHexDigit (c : Char) : Bool :=
  isDigitCh c || (65 ≤ c.toNat && c.toNat ≤ 70) || (97 ≤ c.toNat && c.toNat ≤ 102)

def validateHexString (hex : JStr) : Except JSErr JStr :=
  let clean := if hex.take 2 = str "0x" then hex.drop 2 else hex
  if clean = [] ∨ ¬ clean.all isHexDigit then
    .error (.didErr (str "Invalid hexadecimal format"))
  else if clean.length % 2 ≠ 0 then
    .error (.didErr (str "Hexadecimal string must have even length"))
  else .ok clean

def hexPairVal (a b : Char) : Nat := (hexValCh a).getD 0 * 16 + (hexValCh b).getD 0

def hexPairsToBytes : JStr → List Nat
  | a :: b :: t => hexPairVal a b :: hexPairsToBytes t
  | _ => []

def hexToBytes (hex : JStr) : Except JSErr (List Nat) :=
  match validateHexString hex with
  | .error e => .error e
  | .ok clean => .ok (hexPairsToBytes clean)

def expectedLengths : KeyType → List Nat
  | .ed25519 => [32]
  | .secp256k1 => [33, 65]
  | .x25519 => [32]

def natToStr (n : Nat) : JStr := (toString n).data

def joinOrLengths : List Nat → JStr
  | [] => []
  | [n] => natToStr n
  | n :: m :: r => natToStr n ++ str " or " ++ joinOrLengths (m :: r)

def lengthErrMsg (kt : KeyType) (n : Nat) : JStr :=
  str "Invalid key length for " ++ keyTypeName kt ++ str ": expected " ++
  joinOrLengths (expectedLengths kt) ++ str " bytes, got " ++ natToStr n

def validateKeyLength (keyBytes : List Nat) (kt : KeyType) : Except JSErr Unit :=
  if (expectedLengths kt).contains keyBytes.length then .ok ()
  else .error (.didErr (lengthErrMsg kt keyBytes.length))

/-- The legacy-alias normalization table in `createDIDKey`. -/
def keyTypeMap (s : JStr) : Option KeyType :=
  if s = str "Ed25519" then some .ed25519
  else if s = str "secp256k1" then some .secp256k1
  else if s = str "X25519" then some .x25519
  else if s = str "ed25519-pub" then some .ed25519
  else if s = str "secp256k1-pub" then some .secp256k1
  else if s = str "x25519-pub" then some .x25519
  else none

def createDIDKey (publicKeyHex : JStr) (keyType : JStr) : Except JSErr JStr :=
  if publicKeyHex = [] then .error (.didErr (str "Public key is required"))
  else
    match keyTypeMap keyType with
    | none => .error (.didErr (str "Unsupported key type: " ++ keyType))
    | some kt =>
      match hexToBytes publicKeyHex with
      | .error e => .error e
      | .ok keyBytes =>
        match validateKeyLength keyBytes kt with
        | .error e => .error e
        | .ok _ => .ok (str "did:key:" ++ encodeMultibase keyBytes kt)

/-- Modelled from the spec: step 8 of `encodeDIDKey` (absent from `createDIDKey` in
`src/create.ts`) re-validates the freshly built DID string through the grammar
validator and surfaces a wrapped `DIDError` if that validation fails. -/
def createDIDKeyChecked (publicKeyHex : JStr) (keyType : JStr) : Except JSErr JStr :=
  match createDIDKey publicKeyHex keyType with
  | .error e => .error e
  | .ok s =>
    match validateDID s with
    | .error _ => .error (.didErr (str "Failed to create did:key: invalid DID produced"))
    | .ok vr =>
      if vr.isValid then .ok s
      else .error (.didErr (str "Failed to create did:key: invalid DID produced"))

/-- One optional regex part of a DID URL tail, with its leading delimiter. -/
def optPart (c : Char) : Option JStr → JStr
  | some l => c :: l
  | none => []

/-- The list is empty or its head falsifies `p` (a maximal `takeWhile` stops here). -/
def stopsAt (p : Char → Bool) : JStr → Prop
  | [] => True
  | c :: _ => p c = false

def isAlnumCh (c : Char) : Bool := isLowerCh c || isUpperCh c || isDigitCh c

/-- Invariant of the query-parameter map built by `parseDID`. -/
def keysOK (l : List (JStr × JStr)) : Prop :=
  (∀ kv ∈ l, kv.1 ≠ ([] : JStr)) ∧ (l.map Prod.fst).Nodup

end DID

namespace DID

/-! ## Theorems -/

/-- C1: `createDIDKey` on the hex string
`d75a980182b10ab7d54bfed3c964073a0ee172f3daa62325af021a68f707511a` with key type
`ed25519-pub` returns exactly `did:key:z6MktwupdmLXVVqTzCw4i46r4uGyosGXRnR3XjN4Zq7oMMsw`,
through the full pipeline (hex decode, varint multicodec prefix, Base58BTC, multibase
`z`, `did:key:` prefix). -/
theorem claim1_createDIDKey_ed25519_vector :
    createDIDKey (str "d75a980182b10ab7d54bfed3c964073a0ee172f3daa62325af021a68f707511a")
      (str "ed25519-pub") =
    .ok (str "did:key:z6MktwupdmLXVVqTzCw4i46r4uGyosGXRnR3XjN4Zq7oMMsw") := by
  decide

/-- C4: the varint (unsigned LEB128) encoding of the three multicodec codes produces
exactly the two-byte prefixes `[0xed, 0x01]`, `[0xe7, 0x01]`, `[0xec, 0x01]`. -/
theorem claim4_varint_prefixes :
    encodeVarint 0xed = [0xed, 0x01] ∧ encodeVarint 0xe7 = [0xe7, 0x01] ∧
    encodeVarint 0xec = [0xec, 0x01] := by
  decide

/-- C2, failing input: on `did:key:zabcdefghij?%ZZ=1` (a malformed percent-encoding
in the query), `parseDID` and `validateDID` propagate the `URIError` thrown by
`decodeURIComponent` instead of returning a result structure; `isDID`, which never
decodes the query, returns `true`. -/
theorem claim2_parse_validate_throw_on_malformed_percent :
    parseDID (str "did:key:zabcdefghij?%ZZ=1") = .error .uriErr ∧
    validateDID (str "did:key:zabcdefghij?%ZZ=1") = .error .uriErr ∧
    isDID (str "did:key:zabcdefghij?%ZZ=1") = true := by
  decide

/-- C3, counterexample: `did:key:zabcdefghij ?` is accepted by `parseDID` with
identifier `zabcdefghij ` (trailing space) and empty query; re-serializing yields
`did:key:zabcdefghij ` whose re-parse trims the trailing space, so the round-tripped
identifier differs from the original one. -/
theorem claim3_roundtrip_counterexample :
    parseDID (str "did:key:zabcdefghij ?") =
      .ok ⟨str "did:key:zabcdefghij ?",
        ⟨str "key", str "zabcdefghij ", none, none, none⟩, true, none⟩ ∧
    createDIDURL ⟨str "key", str "zabcdefghij ", none, none, none⟩ =
      str "did:key:zabcdefghij " ∧
    parseDID (str "did:key:zabcdefghij ") =
      .ok ⟨str "did:key:zabcdefghij",
        ⟨str "key", str "zabcdefghij", none, none, none⟩, true, none⟩ ∧
    (str "zabcdefghij" : JStr) ≠ str "zabcdefghij " := by
  decide

/-- C5, counterexample: on `did:web:example.com?%ZZ=1`, `validateDID` throws a
`URIError` (so `validateDID(x).isValid` is not an outcome at all) while `isDID`
returns `true`; the two do not reach the same outcome on every input. -/
theorem claim5_counterexample :
    validateDID (str "did:web:example.com?%ZZ=1") = .error .uriErr ∧
    isDID (str "did:web:example.com?%ZZ=1") = true := by
  decide

/-- C7, counterexample: on the leading-whitespace input `" did:key:zabcdefghij"`,
`parseDID` trims and accepts with method `key`, but `extractMethod` and
`extractIdentifier` (whose own regexes do not trim) return `null`. -/
theorem claim7_extract_counterexample :
    parseDID (str " did:key:zabcdefghij") =
      .ok ⟨str "did:key:zabcdefghij",
        ⟨str "key", str "zabcdefghij", none, none, none⟩, true, none⟩ ∧
    extractMethod (str " did:key:zabcdefghij") = none ∧
    extractIdentifier (str " did:key:zabcdefghij") = none := by
  decide

/-- C9, counterexample: `normalizeDID "did:key:zabcdefghij #"` succeeds with the
trailing-space result `did:key:zabcdefghij ` (the empty fragment is dropped), and a
second `normalizeDID` trims that space, so normalization is not idempotent. -/
theorem claim9_normalize_not_idempotent :
    normalizeDID (str "did:key:zabcdefghij #") = .ok (str "did:key:zabcdefghij ") ∧
    normalizeDID (str "did:key:zabcdefghij ") = .ok (str "did:key:zabcdefghij") ∧
    (str "did:key:zabcdefghij" : JStr) ≠ str "did:key:zabcdefghij " := by
  decide

end DID

namespace DID

/-! ### Character class and list helpers -/

theorem isMethodCh_of_isLowerCh {c : Char} (h : isLowerCh c = true) :
    isMethodCh c = true := by
  simp [isMethodCh, h]

theorem takeWhile_stop {p : Char → Bool} {l r : JStr}
    (hl : ∀ c ∈ l, p c = true) (hr : stopsAt p r) :
    (l ++ r).takeWhile p = l ∧ (l ++ r).dropWhile p = r := by
  constructor
  · rw [List.takeWhile_append_of_pos hl]
    cases r with
    | nil => simp
    | cons c t =>
      simp only [stopsAt] at hr
      simp [List.takeWhile_cons, hr]
  · rw [List.dropWhile_append_of_pos hl]
    cases r with
    | nil => simp
    | cons c t =>
      simp only [stopsAt] at hr
      simp [List.dropWhile_cons, hr]

theorem dropWhile_eq_self_of_all {p : Char → Bool} {s : JStr}
    (h : ∀ c ∈ s, p c = false) : s.dropWhile p = s := by
  cases s with
  | nil => rfl
  | cons c t => simp [List.dropWhile_cons, h c (by simp)]

theorem jsTrim_of_no_ws {s : JStr} (h : ∀ c ∈ s, isJSWs c = false) : jsTrim s = s := by
  unfold jsTrim
  rw [dropWhile_eq_self_of_all h,
      dropWhile_eq_self_of_all (fun c hc => h c (by simpa using hc)),
      List.reverse_reverse]

/-! ### Reconstruction: the regex accepts a well-formed serialized DID URL -/

theorem matchTail3_assemble (m id : JStr) (p q : Option JStr) (fOpt : Option JStr)
    (hf : ∀ fr, fOpt = some fr → ∀ c ∈ fr, isLineTerm c = false) :
    matchTail3 m id p q (optPart '#' fOpt) = some ⟨m, id, p, q, fOpt⟩ := by
  cases fOpt with
  | none => rfl
  | some fr =>
    have hany : fr.any isLineTerm = false := by
      simp only [List.any_eq_false]
      intro c hc
      simp [hf fr rfl c hc]
    simp [optPart, matchTail3, hany]

theorem matchTail2_assemble (m id : JStr) (p : Option JStr) (qOpt fOpt : Option JStr)
    (hq : ∀ qq, qOpt = some qq → ∀ c ∈ qq, isQueryCh c = true)
    (hf : ∀ fr, fOpt = some fr → ∀ c ∈ fr, isLineTerm c = false) :
    matchTail2 m id p (optPart '?' qOpt ++ optPart '#' fOpt) =
      some ⟨m, id, p, qOpt, fOpt⟩ := by
  cases qOpt with
  | some qq =>
    have hstop : stopsAt isQueryCh (optPart '#' fOpt) := by
      cases fOpt <;> simp [stopsAt, optPart, isQueryCh]
    obtain ⟨ht, hd⟩ := takeWhile_stop (hq qq rfl) hstop
    show matchTail3 m id p (some ((qq ++ optPart '#' fOpt).takeWhile isQueryCh))
        ((qq ++ optPart '#' fOpt).dropWhile isQueryCh) = _
    rw [ht, hd]
    exact matchTail3_assemble m id p (some qq) fOpt hf
  | none =>
    cases fOpt with
    | none => exact matchTail3_assemble m id p none none hf
    | some fr =>
      show matchTail3 m id p none ('#' :: fr) = _
      exact matchTail3_assemble m id p none (some fr) hf

theorem matchTail1_assemble (m id : JStr) (pOpt qOpt fOpt : Option JStr)
    (hp : ∀ pp, pOpt = some pp → ∀ c ∈ pp, isPathCh c = true)
    (hq : ∀ qq, qOpt = some qq → ∀ c ∈ qq, isQueryCh c = true)
    (hf : ∀ fr, fOpt = some fr → ∀ c ∈ fr, isLineTerm c = false) :
    matchTail1 m id (optPart '/' pOpt ++ (optPart '?' qOpt ++ optPart '#' fOpt)) =
      some ⟨m, id, pOpt, qOpt, fOpt⟩ := by
  cases pOpt with
  | some pp =>
    have hstop : stopsAt isPathCh (optPart '?' qOpt ++ optPart '#' fOpt) := by
      cases qOpt <;> cases fOpt <;> simp [stopsAt, optPart, isPathCh]
    obtain ⟨ht, hd⟩ := takeWhile_stop (hp pp rfl) hstop
    show matchTail2 m id (some ((pp ++ (optPart '?' qOpt ++ optPart '#' fOpt)).takeWhile isPathCh))
        ((pp ++ (optPart '?' qOpt ++ optPart '#' fOpt)).dropWhile isPathCh) = _
    rw [ht, hd]
    exact matchTail2_assemble m id (some pp) qOpt fOpt hq hf
  | none =>
    cases qOpt with
    | some qq =>
      show matchTail2 m id none ('?' :: (qq ++ optPart '#' fOpt)) = _
      exact matchTail2_assemble m id none (some qq) fOpt hq hf
    | none =>
      cases fOpt with
      | none => exact matchTail2_assemble m id none none none hq hf
      | some fr =>
        show matchTail2 m id none ('#' :: fr) = _
        exact matchTail2_assemble m id none none (some fr) hq hf

theorem matchIdPart_assemble (m id : JStr) (pOpt qOpt fOpt : Option JStr)
    (hid : id ≠ []) (hidAll : ∀ c ∈ id, isIdCh c = true)
    (hp : ∀ pp, pOpt = some pp → ∀ c ∈ pp, isPathCh c = true)
    (hq : ∀ qq, qOpt = some qq → ∀ c ∈ qq, isQueryCh c = true)
    (hf : ∀ fr, fOpt = some fr → ∀ c ∈ fr, isLineTerm c = false) :
    matchIdPart m
      (id ++ (optPart '/' pOpt ++ (optPart '?' qOpt ++ optPart '#' fOpt))) =
      some ⟨m, id, pOpt, qOpt, fOpt⟩ := by
  have hstop : stopsAt isIdCh (optPart '/' pOpt ++ (optPart '?' qOpt ++ optPart '#' fOpt)) := by
    cases pOpt <;> cases qOpt <;> cases fOpt <;> simp [stopsAt, optPart, isIdCh]
  obtain ⟨ht, hd⟩ := takeWhile_stop hidAll hstop
  have hred : matchIdPart m (id ++ (optPart '/' pOpt ++ (optPart '?' qOpt ++ optPart '#' fOpt))) =
      if (id ++ (optPart '/' pOpt ++ (optPart '?' qOpt ++ optPart '#' fOpt))).takeWhile isIdCh = []
      then none
      else matchTail1 m
        ((id ++ (optPart '/' pOpt ++ (optPart '?' qOpt ++ optPart '#' fOpt))).takeWhile isIdCh)
        ((id ++ (optPart '/' pOpt ++ (optPart '?' qOpt ++ optPart '#' fOpt))).dropWhile isIdCh) := rfl
  rw [hred, ht, hd, if_neg hid]
  exact matchTail1_assemble m id pOpt qOpt fOpt hp hq hf

theorem methodFormat_parts {m : JStr} (hm : methodFormat m = true) :
    ∃ mc mt, m = mc :: mt ∧ isLowerCh mc = true ∧ ∀ c ∈ m, isMethodCh c = true := by
  cases m with
  | nil => simp [methodFormat] at hm
  | cons mc mt =>
    simp only [methodFormat, Bool.and_eq_true, List.all_eq_true] at hm
    refine ⟨mc, mt, rfl, hm.1, ?_⟩
    intro c hc
    rcases List.mem_cons.mp hc with h | h
    · exact h ▸ isMethodCh_of_isLowerCh hm.1
    · exact hm.2 c h

theorem matchAfterScheme_assemble (m id : JStr) (pOpt qOpt fOpt : Option JStr)
    (hm : methodFormat m = true)
    (hid : id ≠ []) (hidAll : ∀ c ∈ id, isIdCh c = true)
    (hp : ∀ pp, pOpt = some pp → ∀ c ∈ pp, isPathCh c = true)
    (hq : ∀ qq, qOpt = some qq → ∀ c ∈ qq, isQueryCh c = true)
    (hf : ∀ fr, fOpt = some fr → ∀ c ∈ fr, isLineTerm c = false) :
    matchAfterScheme
      (m ++ ':' :: (id ++ (optPart '/' pOpt ++ (optPart '?' qOpt ++ optPart '#' fOpt)))) =
      some ⟨m, id, pOpt, qOpt, fOpt⟩ := by
  obtain ⟨mc, mt, hmeq, hlow, hall⟩ := methodFormat_parts hm
  have hstop : stopsAt isMethodCh
      (':' :: (id ++ (optPart '/' pOpt ++ (optPart '?' qOpt ++ optPart '#' fOpt)))) := by
    simp [stopsAt, isMethodCh, isLowerCh, isDigitCh]
  obtain ⟨ht, hd⟩ := takeWhile_stop hall hstop
  subst hmeq
  show (if isLowerCh mc then
      matchMethodSplit
        (((mc :: mt) ++ ':' :: (id ++ (optPart '/' pOpt ++ (optPart '?' qOpt ++ optPart '#' fOpt)))).takeWhile isMethodCh)
        (((mc :: mt) ++ ':' :: (id ++ (optPart '/' pOpt ++ (optPart '?' qOpt ++ optPart '#' fOpt)))).dropWhile isMethodCh)
    else none) = _
  rw [if_pos hlow, ht, hd]
  show matchIdPart (mc :: mt)
      (id ++ (optPart '/' pOpt ++ (optPart '?' qOpt ++ optPart '#' fOpt))) = _
  exact matchIdPart_assemble (mc :: mt) id pOpt qOpt fOpt hid hidAll hp hq hf

theorem matchDID_assemble (m id : JStr) (pOpt qOpt fOpt : Option JStr)
    (hm : methodFormat m = true)
    (hid : id ≠ []) (hidAll : ∀ c ∈ id, isIdCh c = true)
    (hp : ∀ pp, pOpt = some pp → ∀ c ∈ pp, isPathCh c = true)
    (hq : ∀ qq, qOpt = some qq → ∀ c ∈ qq, isQueryCh c = true)
    (hf : ∀ fr, fOpt = some fr → ∀ c ∈ fr, isLineTerm c = false) :
    matchDID (str "did:" ++
      (m ++ ':' :: (id ++ (optPart '/' pOpt ++ (optPart '?' qOpt ++ optPart '#' fOpt))))) =
      some ⟨m, id, pOpt, qOpt, fOpt⟩ := by
  have h4 : (str "did:" : JStr) = ['d', 'i', 'd', ':'] := rfl
  rw [h4]
  show matchAfterScheme
      (m ++ ':' :: (id ++ (optPart '/' pOpt ++ (optPart '?' qOpt ++ optPart '#' fOpt)))) = _
  exact matchAfterScheme_assemble m id pOpt qOpt fOpt hm hid hidAll hp hq hf


/-! ### Inversion: what a successful regex match tells us -/

theorem matchTail3_inv {m id : JStr} {p q : Option JStr} {r5 : JStr} {g : RawGroups}
    (h : matchTail3 m id p q r5 = some g) :
    g.method = m ∧ g.identifier = id ∧ g.path = p ∧ g.query = q ∧
      (∀ f, g.fragment = some f → ∀ c ∈ f, isLineTerm c = false) := by
  unfold matchTail3 at h
  split at h
  · injection h with h
    subst h
    refine ⟨rfl, rfl, rfl, rfl, ?_⟩
    intro f hf
    exact absurd hf (by simp)
  · split at h
    next hany => exact Option.noConfusion h
    next hany =>
      injection h with h
      subst h
      refine ⟨rfl, rfl, rfl, rfl, ?_⟩
      intro f hf c hc
      injection hf with hf
      have hfalse : f.any isLineTerm = false := by
        rw [← hf]
        exact Bool.eq_false_iff.mpr hany
      have := List.any_eq_false.mp hfalse c hc
      simpa using this
  · exact Option.noConfusion h

theorem matchTail2_inv {m id : JStr} {p : Option JStr} {r4 : JStr} {g : RawGroups}
    (h : matchTail2 m id p r4 = some g) :
    g.method = m ∧ g.identifier = id ∧ g.path = p ∧
      (∀ q, g.query = some q → ∀ c ∈ q, isQueryCh c = true) ∧
      (∀ f, g.fragment = some f → ∀ c ∈ f, isLineTerm c = false) := by
  unfold matchTail2 at h
  split at h
  · obtain ⟨h1, h2, h3, h4, h5⟩ := matchTail3_inv h
    refine ⟨h1, h2, h3, ?_, h5⟩
    intro q hq
    rw [h4] at hq
    injection hq with hq
    subst hq
    intro c hc
    exact List.all_eq_true.mp List.all_takeWhile c hc
  · obtain ⟨h1, h2, h3, h4, h5⟩ := matchTail3_inv h
    refine ⟨h1, h2, h3, ?_, h5⟩
    intro q hq
    rw [h4] at hq
    exact absurd hq (by simp)

theorem matchTail1_inv {m id : JStr} {r3 : JStr} {g : RawGroups}
    (h : matchTail1 m id r3 = some g) :
    g.method = m ∧ g.identifier = id ∧
      (∀ p, g.path = some p → ∀ c ∈ p, isPathCh c = true) ∧
      (∀ q, g.query = some q → ∀ c ∈ q, isQueryCh c = true) ∧
      (∀ f, g.fragment = some f → ∀ c ∈ f, isLineTerm c = false) := by
  unfold matchTail1 at h
  split at h
  · obtain ⟨h1, h2, h3, h4, h5⟩ := matchTail2_inv h
    refine ⟨h1, h2, ?_, h4, h5⟩
    intro p hp
    rw [h3] at hp
    injection hp with hp
    subst hp
    intro c hc
    exact List.all_eq_true.mp List.all_takeWhile c hc
  · obtain ⟨h1, h2, h3, h4, h5⟩ := matchTail2_inv h
    refine ⟨h1, h2, ?_, h4, h5⟩
    intro p hp
    rw [h3] at hp
    exact absurd hp (by simp)

theorem matchIdPart_inv {m r2 : JStr} {g : RawGroups}
    (h : matchIdPart m r2 = some g) :
    g.method = m ∧ g.identifier = r2.takeWhile isIdCh ∧ g.identifier ≠ [] ∧
      (∀ c ∈ g.identifier, isIdCh c = true) ∧
      (∀ p, g.path = some p → ∀ c ∈ p, isPathCh c = true) ∧
      (∀ q, g.query = some q → ∀ c ∈ q, isQueryCh c = true) ∧
      (∀ f, g.fragment = some f → ∀ c ∈ f, isLineTerm c = false) := by
  rw [show matchIdPart m r2 =
      (if r2.takeWhile isIdCh = [] then none
       else matchTail1 m (r2.takeWhile isIdCh) (r2.dropWhile isIdCh)) from rfl] at h
  split at h
  · exact Option.noConfusion h
  next hne =>
    obtain ⟨h1, h2, h3, h4, h5⟩ := matchTail1_inv h
    refine ⟨h1, h2, ?_, ?_, h3, h4, h5⟩
    · rw [h2]; exact hne
    · intro c hc
      rw [h2] at hc
      exact List.all_eq_true.mp List.all_takeWhile c hc

theorem matchAfterScheme_inv {rest : JStr} {g : RawGroups}
    (h : matchAfterScheme rest = some g) :
    ∃ r2, rest.takeWhile isMethodCh = g.method ∧
      rest.dropWhile isMethodCh = ':' :: r2 ∧
      methodFormat g.method = true ∧ matchIdPart g.method r2 = some g := by
  unfold matchAfterScheme at h
  split at h
  · exact Option.noConfusion h
  next c t =>
    split at h
    next hlow =>
      unfold matchMethodSplit at h
      split at h
      next r2 heq =>
        obtain ⟨h1, _, _, _, _, _, _⟩ := matchIdPart_inv h
        have htw : (c :: t).takeWhile isMethodCh = c :: t.takeWhile isMethodCh := by
          simp [List.takeWhile_cons, isMethodCh_of_isLowerCh hlow]
        have hmf : methodFormat ((c :: t).takeWhile isMethodCh) = true := by
          rw [htw]
          simp only [methodFormat, Bool.and_eq_true]
          exact ⟨hlow, List.all_takeWhile⟩
        refine ⟨r2, ?_, heq, ?_, ?_⟩
        · rw [h1]
        · rw [h1]; exact hmf
        · rw [h1]; exact h
      next => exact Option.noConfusion h
    next => exact Option.noConfusion h

theorem matchDID_inv {s : JStr} {g : RawGroups} (h : matchDID s = some g) :
    ∃ rest r2, s = 'd' :: 'i' :: 'd' :: ':' :: rest ∧
      rest.takeWhile isMethodCh = g.method ∧
      rest.dropWhile isMethodCh = ':' :: r2 ∧
      r2.takeWhile isIdCh = g.identifier ∧
      methodFormat g.method = true ∧ g.identifier ≠ [] ∧
      (∀ c ∈ g.identifier, isIdCh c = true) ∧
      (∀ p, g.path = some p → ∀ c ∈ p, isPathCh c = true) ∧
      (∀ q, g.query = some q → ∀ c ∈ q, isQueryCh c = true) ∧
      (∀ f, g.fragment = some f → ∀ c ∈ f, isLineTerm c = false) := by
  unfold matchDID at h
  split at h
  next rest =>
    obtain ⟨r2, h1, h2, hmf, hmid⟩ := matchAfterScheme_inv h
    obtain ⟨g1, g2, g3, g4, g5, g6, g7⟩ := matchIdPart_inv hmid
    exact ⟨rest, r2, rfl, h1, h2, g2.symm, hmf, g3, g4, g5, g6, g7⟩
  next => exact Option.noConfusion h

/-! ### Percent-coding round trip -/

theorem hexValCh_hexDigitUpper : ∀ n, n < 16 → hexValCh (hexDigitUpper n) = some n := by
  decide

theorem readPct_pctByte {b : Nat} (hb : b < 256) (t : JStr) :
    readPct (pctByte b ++ t) = some (b, t) := by
  have h1 := hexValCh_hexDigitUpper (b / 16) (by omega)
  have h2 := hexValCh_hexDigitUpper (b % 16) (by omega)
  have hb2 : 16 * (b / 16) + b % 16 = b := by omega
  simp [pctByte, readPct, h1, h2, hb2]

theorem decodeSeq_one {v : Nat} (h : v < 0x80) (t : JStr) :
    decodeSeq v t = some (v, t) := by
  simp [decodeSeq, h]

theorem decodeSeq_two {v : Nat} (h1 : 0x80 ≤ v) (h2 : v < 0x800) (t : JStr) :
    decodeSeq (0xC0 + v / 64) (pctByte (0x80 + v % 64) ++ t) = some (v, t) := by
  unfold decodeSeq
  rw [if_neg (by omega), if_pos (show 0xC2 ≤ 0xC0 + v / 64 ∧ 0xC0 + v / 64 ≤ 0xDF by omega),
    readPct_pctByte (by omega), Option.some_bind]
  rw [if_pos (show contByte (0x80 + v % 64) = true by simp [contByte]; omega)]
  simp only [Option.some.injEq, Prod.mk.injEq]
  exact ⟨by omega, trivial⟩

theorem decodeSeq_three {v : Nat} (h1 : 0x800 ≤ v) (h2 : v < 0x10000)
    (hs : v < 0xD800 ∨ 0xDFFF < v) (t : JStr) :
    decodeSeq (0xE0 + v / 4096)
      (pctByte (0x80 + v / 64 % 64) ++ (pctByte (0x80 + v % 64) ++ t)) = some (v, t) := by
  unfold decodeSeq
  rw [if_neg (by omega), if_neg (by omega),
    if_pos (show 0xE0 ≤ 0xE0 + v / 4096 ∧ 0xE0 + v / 4096 ≤ 0xEF by omega),
    readPct_pctByte (by omega), Option.some_bind]
  rw [if_pos (show (if 0xE0 + v / 4096 = 0xE0 then 0xA0 else 0x80) ≤ 0x80 + v / 64 % 64 ∧
      0x80 + v / 64 % 64 ≤ (if 0xE0 + v / 4096 = 0xED then 0x9F else 0xBF) by
    constructor
    · split
      next h => omega
      next h => omega
    · split
      next h => rcases hs with hs | hs <;> omega
      next h => omega)]
  rw [readPct_pctByte (by omega), Option.some_bind]
  rw [if_pos (show contByte (0x80 + v % 64) = true by simp [contByte]; omega)]
  simp only [Option.some.injEq, Prod.mk.injEq]
  exact ⟨by omega, trivial⟩

theorem decodeSeq_four {v : Nat} (h1 : 0x10000 ≤ v) (h2 : v < 0x110000) (t : JStr) :
    decodeSeq (0xF0 + v / 262144)
      (pctByte (0x80 + v / 4096 % 64) ++
        (pctByte (0x80 + v / 64 % 64) ++ (pctByte (0x80 + v % 64) ++ t))) = some (v, t) := by
  unfold decodeSeq
  rw [if_neg (by omega), if_neg (by omega), if_neg (by omega),
    if_pos (show 0xF0 ≤ 0xF0 + v / 262144 ∧ 0xF0 + v / 262144 ≤ 0xF4 by omega),
    readPct_pctByte (by omega), Option.some_bind]
  rw [if_pos (show (if 0xF0 + v / 262144 = 0xF0 then 0x90 else 0x80) ≤ 0x80 + v / 4096 % 64 ∧
      0x80 + v / 4096 % 64 ≤ (if 0xF0 + v / 262144 = 0xF4 then 0x8F else 0xBF) by
    constructor
    · split
      next h => omega
      next h => omega
    · split
      next h => omega
      next h => omega)]
  rw [readPct_pctByte (by omega), Option.some_bind]
  rw [if_pos (show contByte (0x80 + v / 64 % 64) = true by simp [contByte]; omega)]
  rw [readPct_pctByte (by omega), Option.some_bind]
  rw [if_pos (show contByte (0x80 + v % 64) = true by simp [contByte]; omega)]
  simp only [Option.some.injEq, Prod.mk.injEq]
  exact ⟨by omega, trivial⟩

theorem decodeLoop_succ_pct {b : Nat} (hb : b < 256) (f : Nat) (t : JStr) :
    decodeLoop (f + 1) (pctByte b ++ t) =
      (decodeSeq b t).bind fun vt =>
        (decodeLoop f vt.2).map fun r => Char.ofNat vt.1 :: r := by
  have hrp : readPct ('%' :: hexDigitUpper (b / 16) :: hexDigitUpper (b % 16) :: t) =
      some (b, t) := readPct_pctByte hb t
  show decodeLoop (f + 1) ('%' :: hexDigitUpper (b / 16) :: hexDigitUpper (b % 16) :: t) = _
  simp only [decodeLoop, if_pos rfl, hrp]
  cases hds : decodeSeq b t with
  | none => simp
  | some vt =>
    obtain ⟨v, t2⟩ := vt
    cases hdl : decodeLoop f t2 <;> simp [hdl]

theorem decodeLoop_succ_raw {c : Char} (hc : c ≠ '%') (f : Nat) (t : JStr) :
    decodeLoop (f + 1) (c :: t) = (decodeLoop f t).map fun r => c :: r := by
  simp only [decodeLoop, if_neg hc]
  cases hdl : decodeLoop f t <;> simp [hdl]

theorem charValid (c : Char) :
    c.toNat < 0xD800 ∨ (0xDFFF < c.toNat ∧ c.toNat < 0x110000) := c.valid

theorem decodeLoop_encodeURI :
    ∀ (s : JStr) (f : Nat), (encodeURIComponent s).length ≤ f →
      decodeLoop f (encodeURIComponent s) = some s := by
  intro s
  induction s with
  | nil =>
    intro f _
    cases f <;> rfl
  | cons c t ih =>
    intro f hf
    by_cases hU : isUnreservedURI c = true
    · have henc : encodeURIComponent (c :: t) = c :: encodeURIComponent t := by
        simp [encodeURIComponent, encChar, hU]
      rw [henc] at hf ⊢
      obtain ⟨f2, rfl⟩ : ∃ f2, f = f2 + 1 := ⟨f - 1, by simp at hf; omega⟩
      have hc : c ≠ '%' := by
        intro hceq
        rw [hceq] at hU
        exact absurd hU (by decide)
      rw [decodeLoop_succ_raw hc, ih f2 (by simp at hf; omega)]
      rfl
    · have hUf : isUnreservedURI c = false := Bool.eq_false_iff.mpr hU
      have hval := charValid c
      by_cases h1 : c.toNat < 0x80
      · have henc : encodeURIComponent (c :: t) =
            pctByte c.toNat ++ encodeURIComponent t := by
          simp [encodeURIComponent, encChar, hUf, utf8Bytes, h1]
        rw [henc] at hf ⊢
        obtain ⟨f2, rfl⟩ : ∃ f2, f = f2 + 1 := ⟨f - 1, by simp [pctByte] at hf; omega⟩
        rw [decodeLoop_succ_pct (by omega), decodeSeq_one h1]
        simp only [Option.some_bind]
        rw [ih f2 (by simp [pctByte] at hf; omega)]
        simp [Char.ofNat_toNat]
      · by_cases h2 : c.toNat < 0x800
        · have henc : encodeURIComponent (c :: t) =
              pctByte (0xC0 + c.toNat / 64) ++
                (pctByte (0x80 + c.toNat % 64) ++ encodeURIComponent t) := by
            simp [encodeURIComponent, encChar, hUf, utf8Bytes, h1, h2]
          rw [henc] at hf ⊢
          obtain ⟨f2, rfl⟩ : ∃ f2, f = f2 + 1 := ⟨f - 1, by simp [pctByte] at hf; omega⟩
          rw [decodeLoop_succ_pct (by omega), decodeSeq_two (by omega) h2]
          simp only [Option.some_bind]
          rw [ih f2 (by simp [pctByte] at hf; omega)]
          simp [Char.ofNat_toNat]
        · by_cases h3 : c.toNat < 0x10000
          · have hs : c.toNat < 0xD800 ∨ 0xDFFF < c.toNat := by
              rcases hval with h | h
              · exact Or.inl h
              · exact Or.inr h.1
            have henc : encodeURIComponent (c :: t) =
                pctByte (0xE0 + c.toNat / 4096) ++
                  (pctByte (0x80 + c.toNat / 64 % 64) ++
                    (pctByte (0x80 + c.toNat % 64) ++ encodeURIComponent t)) := by
              simp [encodeURIComponent, encChar, hUf, utf8Bytes, h1, h2, h3]
            rw [henc] at hf ⊢
            obtain ⟨f2, rfl⟩ : ∃ f2, f = f2 + 1 := ⟨f - 1, by simp [pctByte] at hf; omega⟩
            rw [decodeLoop_succ_pct (by omega), decodeSeq_three (by omega) h3 hs]
            simp only [Option.some_bind]
            rw [ih f2 (by simp [pctByte] at hf; omega)]
            simp [Char.ofNat_toNat]
          · have h4 : c.toNat < 0x110000 := by
              rcases hval with h | h
              · omega
              · exact h.2
            have henc : encodeURIComponent (c :: t) =
                pctByte (0xF0 + c.toNat / 262144) ++
                  (pctByte (0x80 + c.toNat / 4096 % 64) ++
                    (pctByte (0x80 + c.toNat / 64 % 64) ++
                      (pctByte (0x80 + c.toNat % 64) ++ encodeURIComponent t))) := by
              simp [encodeURIComponent, encChar, hUf, utf8Bytes, h1, h2, h3]
            rw [henc] at hf ⊢
            obtain ⟨f2, rfl⟩ : ∃ f2, f = f2 + 1 := ⟨f - 1, by simp [pctByte] at hf; omega⟩
            rw [decodeLoop_succ_pct (by omega), decodeSeq_four (by omega) h4]
            simp only [Option.some_bind]
            rw [ih f2 (by simp [pctByte] at hf; omega)]
            simp [Char.ofNat_toNat]

theorem decodeURIComponent_encodeURIComponent (s : JStr) :
    decodeURIComponent (encodeURIComponent s) = some s :=
  decodeLoop_encodeURI s _ le_rfl

/-! ### Split / join and encoded-output character facts -/

theorem utf8Bytes_lt (c : Char) : ∀ b ∈ utf8Bytes c, b < 256 := by
  have hval := charValid c
  intro b hb
  unfold utf8Bytes at hb
  by_cases h1 : c.toNat < 0x80
  · simp [h1] at hb
    omega
  · by_cases h2 : c.toNat < 0x800
    · simp [h1, h2] at hb
      rcases hb with hb | hb <;> omega
    · by_cases h3 : c.toNat < 0x10000
      · simp [h1, h2, h3] at hb
        rcases hb with hb | hb | hb <;> omega
      · simp [h1, h2, h3] at hb
        rcases hb with hb | hb | hb | hb <;> omega

theorem hexDigitUpper_not_special : ∀ n, n < 16 →
    (hexDigitUpper n).toNat ≠ 35 ∧ (hexDigitUpper n).toNat ≠ 38 ∧
    (hexDigitUpper n).toNat ≠ 61 := by
  decide

theorem pctByte_not_special {b : Nat} (hb : b < 256) {c2 : Char} (h : c2 ∈ pctByte b) :
    c2.toNat ≠ 35 ∧ c2.toNat ≠ 38 ∧ c2.toNat ≠ 61 := by
  simp [pctByte] at h
  rcases h with h | h | h
  · subst h
    refine ⟨by decide, by decide, by decide⟩
  · subst h
    exact hexDigitUpper_not_special _ (by omega)
  · subst h
    exact hexDigitUpper_not_special _ (by omega)

theorem unreserved_not_special {c : Char} (hU : isUnreservedURI c = true) :
    c.toNat ≠ 35 ∧ c.toNat ≠ 38 ∧ c.toNat ≠ 61 := by
  simp only [isUnreservedURI, isLowerCh, isUpperCh, isDigitCh, Bool.or_eq_true,
    Bool.and_eq_true, decide_eq_true_eq, beq_iff_eq] at hU
  refine ⟨?_, ?_, ?_⟩ <;> omega

theorem encChar_not_special {c c2 : Char} (h : c2 ∈ encChar c) :
    c2.toNat ≠ 35 ∧ c2.toNat ≠ 38 ∧ c2.toNat ≠ 61 := by
  unfold encChar at h
  by_cases hU : isUnreservedURI c = true
  · rw [if_pos hU] at h
    simp at h
    subst h
    exact unreserved_not_special hU
  · rw [if_neg hU] at h
    simp only [List.mem_flatten, List.mem_map] at h
    obtain ⟨l, ⟨b, hb, rfl⟩, hc2⟩ := h
    exact pctByte_not_special (utf8Bytes_lt c b hb) hc2

theorem encodeURIComponent_not_special {s : JStr} {c2 : Char}
    (h : c2 ∈ encodeURIComponent s) :
    c2.toNat ≠ 35 ∧ c2.toNat ≠ 38 ∧ c2.toNat ≠ 61 := by
  induction s with
  | nil => simp [encodeURIComponent] at h
  | cons c t ih =>
    simp only [encodeURIComponent, List.mem_append] at h
    rcases h with h | h
    · exact encChar_not_special h
    · exact ih h

theorem amp_not_mem_encode {s : JStr} : '&' ∉ encodeURIComponent s := fun h =>
  absurd (by decide : ('&' : Char).toNat = 38) (encodeURIComponent_not_special h).2.1

theorem eqch_not_mem_encode {s : JStr} : '=' ∉ encodeURIComponent s := fun h =>
  absurd (by decide : ('=' : Char).toNat = 61) (encodeURIComponent_not_special h).2.2

theorem encodeURIComponent_ne_nil {s : JStr} (hs : s ≠ []) :
    encodeURIComponent s ≠ [] := by
  cases s with
  | nil => exact absurd rfl hs
  | cons c t =>
    show encChar c ++ encodeURIComponent t ≠ []
    simp only [ne_eq, List.append_eq_nil, not_and]
    intro henc
    exfalso
    revert henc
    unfold encChar
    by_cases hU : isUnreservedURI c = true
    · simp [hU]
    · have hval := charValid c
      rw [if_neg hU]
      by_cases h1 : c.toNat < 0x80
      · simp [utf8Bytes, h1, pctByte]
      · by_cases h2 : c.toNat < 0x800
        · simp [utf8Bytes, h1, h2, pctByte]
        · by_cases h3 : c.toNat < 0x10000
          · simp [utf8Bytes, h1, h2, h3, pctByte]
          · simp [utf8Bytes, h1, h2, h3, pctByte]

theorem decodeLoop_ne_nil {f : Nat} {s out : JStr} (h : decodeLoop f s = some out)
    (hs : s ≠ []) : out ≠ [] := by
  cases s with
  | nil => exact absurd rfl hs
  | cons c t =>
    cases f with
    | zero => exact Option.noConfusion h
    | succ f2 =>
      by_cases hc : c = '%'
      · subst hc
        simp only [decodeLoop, if_pos rfl] at h
        rcases hrp : readPct ('%' :: t) with _ | ⟨b1, t1⟩ <;> simp [hrp] at h
        rcases hds : decodeSeq b1 t1 with _ | ⟨v, t2⟩ <;> simp [hds] at h
        rcases hdl : decodeLoop f2 t2 with _ | rr <;> simp [hdl] at h
        rw [← h]
        exact List.cons_ne_nil _ _
      · simp only [decodeLoop, if_neg hc] at h
        rcases hdl : decodeLoop f2 t with _ | rr <;> simp [hdl] at h
        rw [← h]
        exact List.cons_ne_nil _ _

theorem decodeURIComponent_ne_nil {s out : JStr} (h : decodeURIComponent s = some out)
    (hs : s ≠ []) : out ≠ [] :=
  decodeLoop_ne_nil h hs

theorem splitOnCh_no_sep {sep : Char} {l : JStr} (h : sep ∉ l) :
    splitOnCh sep l = [l] := by
  induction l with
  | nil => rfl
  | cons c t ih =>
    have hc : ¬ c = sep := fun e => h (e ▸ List.mem_cons_self c t)
    simp only [splitOnCh, if_neg hc, ih (fun hm => h (List.mem_cons_of_mem _ hm))]

theorem splitOnCh_append {sep : Char} {l r : JStr} (h : sep ∉ l) :
    splitOnCh sep (l ++ sep :: r) = l :: splitOnCh sep r := by
  induction l with
  | nil => simp [splitOnCh]
  | cons c t ih =>
    have hc : ¬ c = sep := fun e => h (e ▸ List.mem_cons_self c t)
    have iht : splitOnCh sep (t ++ sep :: r) = t :: splitOnCh sep r :=
      ih (fun hm => h (List.mem_cons_of_mem _ hm))
    show splitOnCh sep (c :: (t ++ sep :: r)) = _
    simp only [splitOnCh, if_neg hc, iht]

theorem splitOnCh_joinWith {sep : Char} : ∀ (L : List JStr), L ≠ [] →
    (∀ x ∈ L, sep ∉ x) → splitOnCh sep (joinWith sep L) = L
  | [], h, _ => absurd rfl h
  | [x], _, hx => by
    simp only [joinWith]
    exact splitOnCh_no_sep (hx x (by simp))
  | x :: y :: r, _, hx => by
    rw [show joinWith sep (x :: y :: r) = x ++ sep :: joinWith sep (y :: r) from rfl]
    rw [splitOnCh_append (hx x (by simp))]
    rw [splitOnCh_joinWith (y :: r) (by simp)
      (fun z hz => hx z (List.mem_cons_of_mem _ hz))]

theorem mem_joinWith {sep : Char} {c : Char} : ∀ {L : List JStr},
    c ∈ joinWith sep L → c = sep ∨ ∃ x ∈ L, c ∈ x
  | [], h => by simp [joinWith] at h
  | [x], h => by
    simp only [joinWith] at h
    exact Or.inr ⟨x, by simp, h⟩
  | x :: y :: r, h => by
    rw [show joinWith sep (x :: y :: r) = x ++ sep :: joinWith sep (y :: r) from rfl] at h
    rcases List.mem_append.mp h with h | h
    · exact Or.inr ⟨x, by simp, h⟩
    · rcases List.mem_cons.mp h with h | h
      · exact Or.inl h
      · rcases mem_joinWith h with h | ⟨z, hz, hcz⟩
        · exact Or.inl h
        · exact Or.inr ⟨z, List.mem_cons_of_mem _ hz, hcz⟩

theorem upsert_not_mem {k : JStr} (v : JStr) {acc : List (JStr × JStr)}
    (h : ∀ kv ∈ acc, kv.1 ≠ k) : upsert k v acc = acc ++ [(k, v)] := by
  induction acc with
  | nil => rfl
  | cons kv t ih =>
    obtain ⟨k2, v2⟩ := kv
    have hne : ¬ k2 = k := h (k2, v2) (by simp)
    simp only [upsert, if_neg hne, List.cons_append]
    rw [ih (fun kv2 hm => h kv2 (List.mem_cons_of_mem _ hm))]

theorem mem_upsert {k v : JStr} {kv : JStr × JStr} : ∀ {acc : List (JStr × JStr)},
    kv ∈ upsert k v acc → kv ∈ acc ∨ kv = (k, v)
  | [], h => by
    simp [upsert] at h
    exact Or.inr h
  | kv2 :: t, h => by
    obtain ⟨k2, v2⟩ := kv2
    by_cases hk2 : k2 = k
    · rw [show upsert k v ((k2, v2) :: t) = (k2, v) :: t from by
        simp [upsert, hk2]] at h
      rcases List.mem_cons.mp h with h | h
      · subst hk2
        exact Or.inr (by rw [h])
      · exact Or.inl (List.mem_cons_of_mem _ h)
    · rw [show upsert k v ((k2, v2) :: t) = (k2, v2) :: upsert k v t from by
        simp [upsert, hk2]] at h
      rcases List.mem_cons.mp h with h | h
      · exact Or.inl (h ▸ List.mem_cons_self _ _)
      · rcases mem_upsert h with h | h
        · exact Or.inl (List.mem_cons_of_mem _ h)
        · exact Or.inr h

theorem upsert_fst (k v : JStr) : ∀ (acc : List (JStr × JStr)),
    (upsert k v acc).map Prod.fst =
      if k ∈ acc.map Prod.fst then acc.map Prod.fst else acc.map Prod.fst ++ [k]
  | [] => by simp [upsert]
  | (k2, v2) :: t => by
    by_cases hk2 : k2 = k
    · subst hk2
      simp [upsert]
    · have iht := upsert_fst k v t
      simp only [upsert, if_neg hk2, List.map_cons, iht]
      by_cases hm : k ∈ t.map Prod.fst
      · simp [hm, hk2, Ne.symm hk2]
      · simp [hm, hk2, Ne.symm hk2]

/-! ### Query-parameter round trip -/

theorem parsePair_eq (acc : List (JStr × JStr)) (pair : JStr) :
    parsePair acc pair =
      (if (splitOnCh '=' pair).headD [] = [] then .ok acc
       else
         match decodeURIComponent ((splitOnCh '=' pair).headD []) with
         | none => .error .uriErr
         | some dk =>
           match (splitOnCh '=' pair)[1]? with
           | none => .ok (upsert dk [] acc)
           | some v =>
             if v = [] then .ok (upsert dk [] acc)
             else
               match decodeURIComponent v with
               | none => .error .uriErr
               | some dv => .ok (upsert dk dv acc)) := rfl

theorem parsePair_encoded (acc : List (JStr × JStr)) (k v : JStr) (hk : k ≠ []) :
    parsePair acc (encodeURIComponent k ++ '=' :: encodeURIComponent v) =
      .ok (upsert k v acc) := by
  have hsplit : splitOnCh '=' (encodeURIComponent k ++ '=' :: encodeURIComponent v) =
      [encodeURIComponent k, encodeURIComponent v] := by
    rw [splitOnCh_append eqch_not_mem_encode, splitOnCh_no_sep eqch_not_mem_encode]
  rw [parsePair_eq, hsplit]
  simp only [List.headD_cons, List.getElem?_cons_succ, List.getElem?_cons_zero]
  rw [if_neg (encodeURIComponent_ne_nil hk), decodeURIComponent_encodeURIComponent]
  by_cases hv : v = []
  · subst hv
    simp [encodeURIComponent]
  · show (if encodeURIComponent v = [] then Except.ok (upsert k [] acc)
        else
          match decodeURIComponent (encodeURIComponent v) with
          | none => Except.error JSErr.uriErr
          | some dv => Except.ok (upsert k dv acc)) = Except.ok (upsert k v acc)
    rw [if_neg (encodeURIComponent_ne_nil hv), decodeURIComponent_encodeURIComponent]

theorem parsePair_ok_cases {acc acc2 : List (JStr × JStr)} {pair : JStr}
    (h : parsePair acc pair = .ok acc2) :
    acc2 = acc ∨ ∃ dk dv, dk ≠ ([] : JStr) ∧ acc2 = upsert dk dv acc := by
  rw [parsePair_eq] at h
  split at h
  · injection h with h
    exact Or.inl h.symm
  next hkey =>
    split at h
    · exact Except.noConfusion h
    next dk hdk =>
      have hdkne : dk ≠ [] := decodeURIComponent_ne_nil hdk hkey
      split at h
      · injection h with h
        exact Or.inr ⟨dk, [], hdkne, h.symm⟩
      next vv hvv =>
        split at h
        · injection h with h
          exact Or.inr ⟨dk, [], hdkne, h.symm⟩
        · split at h
          · exact Except.noConfusion h
          next dv hdv =>
            injection h with h
            exact Or.inr ⟨dk, dv, hdkne, h.symm⟩

theorem keysOK_nil : keysOK [] := ⟨fun _ h => absurd h (by simp), by simp⟩

theorem keysOK_upsert {k v : JStr} {acc : List (JStr × JStr)} (hk : k ≠ [])
    (h : keysOK acc) : keysOK (upsert k v acc) := by
  constructor
  · intro kv hm
    rcases mem_upsert hm with hm | hm
    · exact h.1 kv hm
    · rw [hm]
      exact hk
  · rw [upsert_fst]
    split
    · exact h.2
    next hnm =>
      rw [List.nodup_append]
      exact ⟨h.2, List.nodup_singleton k, by simpa using hnm⟩

theorem parsePairs_keysOK : ∀ {ps : List JStr} {acc acc2 : List (JStr × JStr)},
    parsePairs acc ps = .ok acc2 → keysOK acc → keysOK acc2
  | [], acc, acc2, h, hok => by
    simp only [parsePairs] at h
    injection h with h
    exact h ▸ hok
  | p :: rest, acc, acc2, h, hok => by
    simp only [parsePairs] at h
    rcases hpp : parsePair acc p with e | acc3 <;> rw [hpp] at h
    · exact Except.noConfusion h
    · refine parsePairs_keysOK h ?_
      rcases parsePair_ok_cases hpp with hc | ⟨dk, dv, hdk, hc⟩
      · exact hc ▸ hok
      · exact hc ▸ keysOK_upsert hdk hok

theorem parseQueryParams_keysOK {qOpt : Option JStr} {ql : List (JStr × JStr)}
    (h : parseQueryParams qOpt = .ok ql) : keysOK ql := by
  cases qOpt with
  | none =>
    simp only [parseQueryParams] at h
    injection h with h
    exact h ▸ keysOK_nil
  | some q =>
    simp only [parseQueryParams] at h
    split at h
    · injection h with h
      exact h ▸ keysOK_nil
    · exact parsePairs_keysOK h keysOK_nil

theorem parsePairs_encoded : ∀ (ql : List (JStr × JStr)) (acc : List (JStr × JStr)),
    (∀ kv ∈ ql, kv.1 ≠ ([] : JStr)) →
    (ql.map Prod.fst).Nodup →
    (∀ kv ∈ ql, ∀ kv2 ∈ acc, kv.1 ≠ kv2.1) →
    parsePairs acc
      (ql.map fun kv => encodeURIComponent kv.1 ++ '=' :: encodeURIComponent kv.2) =
      .ok (acc ++ ql)
  | [], acc, _, _, _ => by simp [parsePairs]
  | (k, v) :: rest, acc, hk, hnd, hfresh => by
    have hmap : ((k, v) :: rest).map
        (fun kv => encodeURIComponent kv.1 ++ '=' :: encodeURIComponent kv.2) =
        (encodeURIComponent k ++ '=' :: encodeURIComponent v) ::
          rest.map (fun kv => encodeURIComponent kv.1 ++ '=' :: encodeURIComponent kv.2) := rfl
    rw [hmap]
    simp only [parsePairs]
    rw [parsePair_encoded acc k v (hk (k, v) (by simp))]
    show parsePairs (upsert k v acc)
        (rest.map (fun kv => encodeURIComponent kv.1 ++ '=' :: encodeURIComponent kv.2)) = _
    rw [upsert_not_mem v (fun kv2 hm e => hfresh (k, v) (by simp) kv2 hm e.symm)]
    have hnd2 : (rest.map Prod.fst).Nodup := by
      simp only [List.map_cons, List.nodup_cons] at hnd
      exact hnd.2
    have hknotin : k ∉ rest.map Prod.fst := by
      simp only [List.map_cons, List.nodup_cons] at hnd
      exact hnd.1
    have hfresh2 : ∀ kv ∈ rest, ∀ kv2 ∈ acc ++ [(k, v)], kv.1 ≠ kv2.1 := by
      intro kv hm kv2 hm2
      rcases List.mem_append.mp hm2 with hm2 | hm2
      · exact hfresh kv (List.mem_cons_of_mem _ hm) kv2 hm2
      · simp only [List.mem_singleton] at hm2
        subst hm2
        intro e
        simp only at e
        apply hknotin
        rw [← e]
        exact List.mem_map_of_mem Prod.fst hm
    rw [parsePairs_encoded rest (acc ++ [(k, v)])
      (fun kv hm => hk kv (List.mem_cons_of_mem _ hm)) hnd2 hfresh2]
    simp

theorem serializeQuery_queryCh {ql : List (JStr × JStr)} {c : Char}
    (h : c ∈ serializeQuery ql) : isQueryCh c = true := by
  unfold serializeQuery at h
  rcases mem_joinWith h with h | ⟨x, hx, hcx⟩
  · subst h
    decide
  · simp only [List.mem_map] at hx
    obtain ⟨kv, _, rfl⟩ := hx
    have hne35 : c.toNat ≠ 35 := by
      rcases List.mem_append.mp hcx with hc | hc
      · exact (encodeURIComponent_not_special hc).1
      · rcases List.mem_cons.mp hc with rfl | hc
        · decide
        · exact (encodeURIComponent_not_special hc).1
    simp only [isQueryCh, Bool.not_eq_true']
    simpa using hne35

theorem amp_not_mem_piece {kv : JStr × JStr} :
    '&' ∉ encodeURIComponent kv.1 ++ '=' :: encodeURIComponent kv.2 := by
  intro h
  rcases List.mem_append.mp h with h | h
  · exact amp_not_mem_encode h
  · rcases List.mem_cons.mp h with h | h
    · exact absurd h (by decide)
    · exact amp_not_mem_encode h

theorem serializeQuery_ne_nil {ql : List (JStr × JStr)} (h : ql ≠ []) :
    serializeQuery ql ≠ [] := by
  cases ql with
  | nil => exact absurd rfl h
  | cons kv rest =>
    cases rest with
    | nil => simp [serializeQuery, joinWith]
    | cons kv2 rest2 => simp [serializeQuery, joinWith]

theorem parseQueryParams_encoded {ql : List (JStr × JStr)} (hne : ql ≠ [])
    (hok : keysOK ql) :
    parseQueryParams (some (serializeQuery ql)) = .ok ql := by
  simp only [parseQueryParams]
  rw [if_neg (serializeQuery_ne_nil hne)]
  unfold serializeQuery
  rw [splitOnCh_joinWith _ (by simpa using hne) (by
    intro x hx
    simp only [List.mem_map] at hx
    obtain ⟨kv, _, rfl⟩ := hx
    exact amp_not_mem_piece)]
  rw [parsePairs_encoded ql [] hok.1 hok.2 (fun kv _ kv2 hm2 => absurd hm2 (by simp))]
  simp

/-! ### parseDID structure lemmas and the serialization round trip -/

theorem parseDID_eq (did : JStr) :
    parseDID did =
      (if did = [] then
        .ok ⟨did, emptyComponents, false, some (str "DID must be a non-empty string")⟩
       else if jsTrim did = [] then
        .ok ⟨jsTrim did, emptyComponents, false, some (str "Empty DID string is invalid")⟩
       else
        match matchDID (jsTrim did) with
        | none =>
          .ok ⟨jsTrim did, emptyComponents, false,
            some (str "Invalid DID format - must match scheme:method:identifier pattern")⟩
        | some g =>
          if g.method = [] ∨ g.identifier = [] then
            .ok ⟨jsTrim did, emptyComponents, false,
              some (str "DID method and identifier cannot be empty")⟩
          else
            match parseQueryParams g.query with
            | .error e => .error e
            | .ok qlist =>
              .ok ⟨jsTrim did,
                ⟨g.method, g.identifier, optNonempty g.path,
                 (if qlist = [] then none else some qlist), optNonempty g.fragment⟩,
                true, none⟩) := rfl

theorem parseDID_ok_valid_inv {d : JStr} {r : DIDParseResult}
    (h : parseDID d = .ok r) (hv : r.isValid = true) :
    ∃ g qlist, matchDID (jsTrim d) = some g ∧ parseQueryParams g.query = .ok qlist ∧
      r = ⟨jsTrim d,
        ⟨g.method, g.identifier, optNonempty g.path,
         (if qlist = [] then none else some qlist), optNonempty g.fragment⟩,
        true, none⟩ := by
  rw [parseDID_eq] at h
  split at h
  · injection h with h
    rw [← h] at hv
    simp at hv
  · split at h
    · injection h with h
      rw [← h] at hv
      simp at hv
    · split at h
      · injection h with h
        rw [← h] at hv
        simp at hv
      next g hg =>
        split at h
        · injection h with h
          rw [← h] at hv
          simp at hv
        · split at h
          · exact Except.noConfusion h
          next qlist hq =>
            injection h with h
            exact ⟨g, qlist, hg, hq, h.symm⟩

theorem methodFormat_ne_nil {m : JStr} (h : methodFormat m = true) : m ≠ [] := by
  cases m with
  | nil => simp [methodFormat] at h
  | cons c t => exact List.cons_ne_nil c t

theorem optNonempty_some {o : Option JStr} {p : JStr} (h : optNonempty o = some p) :
    o = some p ∧ p ≠ [] := by
  cases o with
  | none => simp [optNonempty] at h
  | some l =>
    simp only [optNonempty] at h
    split at h
    · exact Option.noConfusion h
    next hne =>
      injection h with h
      subst h
      exact ⟨rfl, hne⟩

theorem optNonempty_idem (o : Option JStr) : optNonempty (optNonempty o) = optNonempty o := by
  cases o with
  | none => rfl
  | some l =>
    by_cases hl : l = []
    · simp [optNonempty, hl]
    · simp [optNonempty, hl]

theorem createDIDURL_parts (c : DIDComponents)
    (hp : ∀ p, c.path = some p → p ≠ []) (hf : ∀ f, c.fragment = some f → f ≠ []) :
    createDIDURL c =
      str "did:" ++ (c.method ++ ':' :: (c.identifier ++
        (optPart '/' c.path ++
          (optPart '?' (c.query.map serializeQuery) ++ optPart '#' c.fragment)))) := by
  have hpe : (match c.path with
      | some p => if p = [] then [] else '/' :: p
      | none => []) = optPart '/' c.path := by
    rcases hcp : c.path with _ | p
    · rfl
    · simp [optPart, hp p hcp]
  have hqe : (match c.query with
      | some q => '?' :: serializeQuery q
      | none => []) = optPart '?' (c.query.map serializeQuery) := by
    rcases c.query with _ | ql <;> rfl
  have hfe : (match c.fragment with
      | some f => if f = [] then [] else '#' :: f
      | none => []) = optPart '#' c.fragment := by
    rcases hcf : c.fragment with _ | fr
    · rfl
    · simp [optPart, hf fr hcf]
  unfold createDIDURL
  rw [hpe, hqe, hfe]
  simp [List.append_assoc]

theorem parseDID_of_match {dd : JStr} {g2 : RawGroups} (hne : dd ≠ [])
    (htr : jsTrim dd = dd) (hm2 : matchDID dd = some g2)
    (hmne : ¬ (g2.method = [] ∨ g2.identifier = [])) {ql2 : List (JStr × JStr)}
    (hq2 : parseQueryParams g2.query = .ok ql2) :
    parseDID dd = .ok ⟨dd,
      ⟨g2.method, g2.identifier, optNonempty g2.path,
       (if ql2 = [] then none else some ql2), optNonempty g2.fragment⟩,
      true, none⟩ := by
  rw [parseDID_eq, htr, if_neg hne, if_neg hne]
  simp [hm2, hmne, hq2]

theorem roundtrip_core {d : JStr} {r : DIDParseResult}
    (h : parseDID d = .ok r) (hv : r.isValid = true)
    (ht : jsTrim (createDIDURL r.components) = createDIDURL r.components) :
    parseDID (createDIDURL r.components) =
      .ok ⟨createDIDURL r.components, r.components, true, none⟩ := by
  obtain ⟨g, qlist, hg, hq, hr⟩ := parseDID_ok_valid_inv h hv
  obtain ⟨rest, r2, hseq, _, _, _, hmf, hidne, hidall, hpall, hqall, hfall⟩ := matchDID_inv hg
  have hkeys := parseQueryParams_keysOK hq
  have hcomp : r.components =
      ⟨g.method, g.identifier, optNonempty g.path,
       (if qlist = [] then none else some qlist), optNonempty g.fragment⟩ := by
    rw [hr]
  have hp' : ∀ p, r.components.path = some p → p ≠ [] := by
    rw [hcomp]
    exact fun p hp => (optNonempty_some hp).2
  have hf' : ∀ f, r.components.fragment = some f → f ≠ [] := by
    rw [hcomp]
    exact fun f hf => (optNonempty_some hf).2
  have hser := createDIDURL_parts r.components hp' hf'
  have hmatch : matchDID (createDIDURL r.components) =
      some ⟨r.components.method, r.components.identifier, r.components.path,
        r.components.query.map serializeQuery, r.components.fragment⟩ := by
    rw [hser]
    refine matchDID_assemble _ _ _ _ _ ?_ ?_ ?_ ?_ ?_ ?_
    · rw [hcomp]
      exact hmf
    · rw [hcomp]
      exact hidne
    · rw [hcomp]
      exact hidall
    · rw [hcomp]
      intro pp hpp
      exact hpall pp (optNonempty_some hpp).1
    · rw [hcomp]
      intro qq hqq
      rcases hql : (if qlist = [] then none else (some qlist : Option (List (JStr × JStr)))) with _ | ql0
      · rw [hql] at hqq
        simp at hqq
      · rw [hql] at hqq
        simp only [Option.map_some'] at hqq
        injection hqq with hqq
        subst hqq
        exact fun c hc => serializeQuery_queryCh hc
    · rw [hcomp]
      intro fr hfr
      exact hfall fr (optNonempty_some hfr).1
  have hddne : createDIDURL r.components ≠ [] := by
    rw [hser]
    rw [show (str "did:" : JStr) = ['d', 'i', 'd', ':'] from rfl]
    simp
  have hq2 : parseQueryParams (r.components.query.map serializeQuery) = .ok qlist := by
    rw [hcomp]
    by_cases hqn : qlist = []
    · subst hqn
      simp [parseQueryParams]
    · rw [if_neg hqn]
      simp only [Option.map_some']
      exact parseQueryParams_encoded hqn hkeys
  have hmne : ¬ (r.components.method = [] ∨ r.components.identifier = []) := by
    rw [hcomp]
    push_neg
    exact ⟨methodFormat_ne_nil hmf, hidne⟩
  have hfinal := parseDID_of_match hddne ht hmatch hmne hq2
  rw [hfinal]
  have hcs : (⟨r.components.method, r.components.identifier,
      optNonempty r.components.path,
      (if qlist = [] then none else some qlist),
      optNonempty r.components.fragment⟩ : DIDComponents) = r.components := by
    rw [hcomp]
    rw [show (⟨g.method, g.identifier, optNonempty g.path,
      (if qlist = [] then none else some qlist),
      optNonempty g.fragment⟩ : DIDComponents).path = optNonempty g.path from rfl]
    rw [show (⟨g.method, g.identifier, optNonempty g.path,
      (if qlist = [] then none else some qlist),
      optNonempty g.fragment⟩ : DIDComponents).fragment = optNonempty g.fragment from rfl]
    rw [optNonempty_idem g.path, optNonempty_idem g.fragment]
  rw [hcs]

theorem parsePair_error_uriErr {acc : List (JStr × JStr)} {pair : JStr} {e : JSErr}
    (h : parsePair acc pair = .error e) : e = .uriErr := by
  rw [parsePair_eq] at h
  split at h
  · exact Except.noConfusion h
  · split at h
    · injection h with h
      exact h.symm
    · split at h
      · exact Except.noConfusion h
      · split at h
        · exact Except.noConfusion h
        · split at h
          · injection h with h
            exact h.symm
          · exact Except.noConfusion h

theorem parsePairs_error_uriErr : ∀ {ps : List JStr} {acc : List (JStr × JStr)} {e : JSErr},
    parsePairs acc ps = .error e → e = .uriErr
  | [], acc, e, h => by
    simp only [parsePairs] at h
    exact Except.noConfusion h
  | p :: rest, acc, e, h => by
    simp only [parsePairs] at h
    rcases hpp : parsePair acc p with e2 | acc2 <;> rw [hpp] at h
    · injection h with h
      exact h ▸ parsePair_error_uriErr hpp
    · exact parsePairs_error_uriErr h

theorem parseQueryParams_error_uriErr {qOpt : Option JStr} {e : JSErr}
    (h : parseQueryParams qOpt = .error e) : e = .uriErr := by
  cases qOpt with
  | none => exact Except.noConfusion h
  | some q =>
    simp only [parseQueryParams] at h
    split at h
    · exact Except.noConfusion h
    · exact parsePairs_error_uriErr h

theorem parseDID_error_uriErr {d : JStr} {e : JSErr} (h : parseDID d = .error e) :
    e = .uriErr := by
  rw [parseDID_eq] at h
  split at h
  · exact Except.noConfusion h
  · split at h
    · exact Except.noConfusion h
    · split at h
      · exact Except.noConfusion h
      · split at h
        · exact Except.noConfusion h
        · split at h
          next e2 he2 =>
            injection h with h
            exact h ▸ parseQueryParams_error_uriErr he2
          next => exact Except.noConfusion h

/-- C3, amended: the parse/serialize round trip preserves all components whenever the
re-serialized string is trim-invariant (no stray leading/trailing JS whitespace); the
counterexample shows this is the exact condition the code violates in general. -/
theorem claim3_roundtrip_trimmed (d : JStr) (r : DIDParseResult)
    (h : parseDID d = .ok r) (hv : r.isValid = true)
    (ht : jsTrim (createDIDURL r.components) = createDIDURL r.components) :
    parseDID (createDIDURL r.components) =
      .ok ⟨createDIDURL r.components, r.components, true, none⟩ :=
  roundtrip_core h hv ht

theorem claim3_roundtrip_trimmed_witness :
    parseDID (createDIDURL
      ⟨str "web", str "example.com", some (str "path"),
       some [(str "service", str "agent"), (str "version", str "1.0")],
       some (str "keys-1")⟩) =
    .ok ⟨createDIDURL
      ⟨str "web", str "example.com", some (str "path"),
       some [(str "service", str "agent"), (str "version", str "1.0")],
       some (str "keys-1")⟩,
      ⟨str "web", str "example.com", some (str "path"),
       some [(str "service", str "agent"), (str "version", str "1.0")],
       some (str "keys-1")⟩, true, none⟩ :=
  claim3_roundtrip_trimmed
    (str "did:web:example.com/path?service=agent&version=1.0#keys-1")
    ⟨str "did:web:example.com/path?service=agent&version=1.0#keys-1",
     ⟨str "web", str "example.com", some (str "path"),
      some [(str "service", str "agent"), (str "version", str "1.0")],
      some (str "keys-1")⟩, true, none⟩
    (by decide) (by decide) (by decide)

/-- C9, amended: whenever `normalizeDID` succeeds and its output is trim-invariant,
that output parses successfully and a second normalization returns it unchanged
(the counterexample shows idempotence fails when the output has trailing whitespace);
and `normalizeDID` throws a wrapped `DIDError` exactly when `parseDID` returns an
invalid result (on a `URIError` input both propagate the `URIError` instead). -/
theorem claim9_normalize_idempotent_trimmed :
    (∀ d s, normalizeDID d = .ok s → jsTrim s = s →
      (∃ r2, parseDID s = .ok r2 ∧ r2.isValid = true) ∧ normalizeDID s = .ok s) ∧
    (∀ d, (∃ e, normalizeDID d = .error (.didErr e)) ↔
      (∃ r, parseDID d = .ok r ∧ r.isValid = false)) := by
  constructor
  · intro d s h ht
    unfold normalizeDID at h
    split at h
    · exact Except.noConfusion h
    next r hr =>
      split at h
      next hrv =>
        injection h with h
        subst h
        have hround := roundtrip_core hr hrv ht
        constructor
        · exact ⟨_, hround, rfl⟩
        · unfold normalizeDID
          rw [hround]
          simp
      · exact Except.noConfusion h
  · intro d
    constructor
    · rintro ⟨e, he⟩
      unfold normalizeDID at he
      split at he
      next e2 he2 =>
        injection he with he
        have := parseDID_error_uriErr he2
        subst this
        exact JSErr.noConfusion he
      next r hr =>
        split at he
        · exact Except.noConfusion he
        next hrv =>
          exact ⟨r, hr, Bool.eq_false_iff.mpr hrv⟩
    · rintro ⟨r, hr, hrv⟩
      refine ⟨str "Cannot normalize invalid DID: " ++ r.error.getD [], ?_⟩
      unfold normalizeDID
      rw [hr]
      show (if r.isValid = true then Except.ok (createDIDURL r.components)
          else Except.error
            (JSErr.didErr (str "Cannot normalize invalid DID: " ++ r.error.getD []))) = _
      rw [hrv]
      simp

theorem claim9_normalize_idempotent_trimmed_witness :
    normalizeDID (str "did:web:example.com/path?service=agent&version=1.0#keys-1") =
      .ok (str "did:web:example.com/path?service=agent&version=1.0#keys-1") :=
  (claim9_normalize_idempotent_trimmed.1
    (str "did:web:example.com/path?service=agent&version=1.0#keys-1")
    (str "did:web:example.com/path?service=agent&version=1.0#keys-1")
    (by decide) (by decide)).2

/-! ### Base58 and did:key output validation -/

theorem base58Digits_lt : ∀ (f v : Nat), ∀ d ∈ base58Digits f v, d < 58
  | 0, _, d, hd => by simp [base58Digits] at hd
  | f + 1, 0, d, hd => by simp [base58Digits] at hd
  | f + 1, v + 1, d, hd => by
    rw [show base58Digits (f + 1) (v + 1) =
      base58Digits f ((v + 1) / 58) ++ [(v + 1) % 58] from rfl] at hd
    rcases List.mem_append.mp hd with hd | hd
    · exact base58Digits_lt f _ d hd
    · simp at hd
      subst hd
      exact Nat.mod_lt _ (by omega)

theorem base58Digits_length_ge : ∀ (f v n : Nat), v < 58 ^ f → 58 ^ n ≤ v →
    n + 1 ≤ (base58Digits f v).length
  | 0, v, n, hv, hn => by
    exfalso
    have : 1 ≤ v := le_trans (Nat.one_le_pow _ _ (by omega)) hn
    simp at hv
    omega
  | f + 1, 0, n, hv, hn => by
    exfalso
    have : (1 : Nat) ≤ 0 := le_trans (Nat.one_le_pow _ _ (by omega)) hn
    omega
  | f + 1, v + 1, n, hv, hn => by
    rw [show base58Digits (f + 1) (v + 1) =
      base58Digits f ((v + 1) / 58) ++ [(v + 1) % 58] from rfl]
    rw [List.length_append, List.length_singleton]
    cases n with
    | zero => omega
    | succ m =>
      have hdiv1 : 58 ^ m ≤ (v + 1) / 58 := by
        rw [Nat.le_div_iff_mul_le (by omega)]
        calc 58 ^ m * 58 = 58 ^ (m + 1) := by rw [Nat.pow_succ]
        _ ≤ v + 1 := hn
      have hdiv2 : (v + 1) / 58 < 58 ^ f := by
        rw [Nat.div_lt_iff_lt_mul (by omega)]
        calc v + 1 < 58 ^ (f + 1) := hv
        _ = 58 ^ f * 58 := by rw [Nat.pow_succ]
      have := base58Digits_length_ge f ((v + 1) / 58) m hdiv2 hdiv1
      omega

theorem bytesToNat_foldl_ge (bs : List Nat) :
    ∀ a : Nat, a * 256 ^ bs.length ≤ bs.foldl (fun x b => x * 256 + b) a := by
  induction bs with
  | nil => intro a; simp
  | cons b t ih =>
    intro a
    simp only [List.foldl_cons, List.length_cons]
    calc a * 256 ^ (t.length + 1) = a * 256 * 256 ^ t.length := by ring
    _ ≤ (a * 256 + b) * 256 ^ t.length := by
        exact Nat.mul_le_mul_right _ (by omega)
    _ ≤ t.foldl (fun x b => x * 256 + b) (a * 256 + b) := ih _

theorem bytesToNat_cons_ge (b : Nat) (rest : List Nat) :
    b * 256 ^ rest.length ≤ bytesToNat (b :: rest) := by
  unfold bytesToNat
  simp only [List.foldl_cons]
  have := bytesToNat_foldl_ge rest b
  simpa using this

theorem bytesToNat_foldl_lt (bs : List Nat) (hb : ∀ b ∈ bs, b < 256) :
    ∀ a : Nat, bs.foldl (fun x b => x * 256 + b) a < (a + 1) * 256 ^ bs.length := by
  induction bs with
  | nil => intro a; simp
  | cons b t ih =>
    intro a
    simp only [List.foldl_cons, List.length_cons]
    have hblt : b < 256 := hb b (by simp)
    have iht := ih (fun b2 h2 => hb b2 (List.mem_cons_of_mem _ h2)) (a * 256 + b)
    calc t.foldl (fun x b => x * 256 + b) (a * 256 + b) < (a * 256 + b + 1) * 256 ^ t.length := iht
    _ ≤ ((a + 1) * 256) * 256 ^ t.length := Nat.mul_le_mul_right _ (by omega)
    _ = (a + 1) * 256 ^ (t.length + 1) := by ring

theorem bytesToNat_lt (bs : List Nat) (hb : ∀ b ∈ bs, b < 256) :
    bytesToNat bs < 256 ^ bs.length := by
  have := bytesToNat_foldl_lt bs hb 0
  simpa [bytesToNat] using this

theorem hexValCh_getD_lt (c : Char) : (hexValCh c).getD 0 < 16 := by
  unfold hexValCh
  split
  next h =>
    simp only [Bool.and_eq_true, decide_eq_true_eq] at h
    simp only [Option.getD_some]
    omega
  next =>
    split
    next h =>
      simp only [Bool.and_eq_true, decide_eq_true_eq] at h
      simp only [Option.getD_some]
      omega
    next =>
      split
      next h =>
        simp only [Bool.and_eq_true, decide_eq_true_eq] at h
        simp only [Option.getD_some]
        omega
      next => simp

theorem hexPairsToBytes_lt : ∀ (s : JStr), ∀ b ∈ hexPairsToBytes s, b < 256
  | [], b, hb => by simp [hexPairsToBytes] at hb
  | [a], b, hb => by simp [hexPairsToBytes] at hb
  | a :: a2 :: t, b, hb => by
    rw [show hexPairsToBytes (a :: a2 :: t) =
      hexPairVal a a2 :: hexPairsToBytes t from rfl] at hb
    rcases List.mem_cons.mp hb with hb | hb
    · subst hb
      unfold hexPairVal
      have h1 := hexValCh_getD_lt a
      have h2 := hexValCh_getD_lt a2
      omega
    · exact hexPairsToBytes_lt t b hb

theorem hexToBytes_ok_lt {hex : JStr} {bytes : List Nat}
    (h : hexToBytes hex = .ok bytes) : ∀ b ∈ bytes, b < 256 := by
  unfold hexToBytes at h
  split at h
  · exact Except.noConfusion h
  · injection h with h
    exact h ▸ hexPairsToBytes_lt _

theorem b58_alphabet_alnum : ∀ d, d < 58 → isAlnumCh (BASE58_ALPHABET.getD d ' ') = true := by
  decide

theorem alnum_isIdCh {c : Char} (h : isAlnumCh c = true) : isIdCh c = true := by
  simp only [isAlnumCh, isLowerCh, isUpperCh, isDigitCh, Bool.or_eq_true,
    Bool.and_eq_true, decide_eq_true_eq] at h
  simp [isIdCh]
  omega

theorem alnum_not_ws {c : Char} (h : isAlnumCh c = true) : isJSWs c = false := by
  simp only [isAlnumCh, isLowerCh, isUpperCh, isDigitCh, Bool.or_eq_true,
    Bool.and_eq_true, decide_eq_true_eq] at h
  simp [isJSWs]
  omega

theorem alnum_not_bad {c : Char} (h : isAlnumCh c = true) : isBadKeyCh c = false := by
  simp only [isAlnumCh, isLowerCh, isUpperCh, isDigitCh, Bool.or_eq_true,
    Bool.and_eq_true, decide_eq_true_eq] at h
  simp [isBadKeyCh, isJSWs]
  omega

theorem encodeBase58_alnum {bytes : List Nat} {c : Char}
    (h : c ∈ encodeBase58 bytes) : isAlnumCh c = true := by
  unfold encodeBase58 at h
  split at h
  · simp at h
  · rcases List.mem_append.mp h with h | h
    · simp only [List.mem_map] at h
      obtain ⟨b, _, rfl⟩ := h
      decide
    · simp only [List.mem_map] at h
      obtain ⟨d, hd, rfl⟩ := h
      exact b58_alphabet_alnum d (base58Digits_lt _ _ d hd)

theorem validateDID_eq (did : JStr) :
    validateDID did =
      (match parseDID did with
       | .error e => .error e
       | .ok pr =>
         if pr.isValid = false then .ok ⟨false, pr.error, none⟩
         else
           if ¬ supportedMethod pr.components.method then
             if methodFormat pr.components.method then
               .ok ⟨true, none,
                 some [str "Method " ++ sq :: pr.components.method ++
                   sq :: str " is not officially supported"]⟩
             else
               .ok ⟨false,
                 some (str "Invalid DID method name: " ++ sq :: pr.components.method ++ [sq]),
                 none⟩
           else
             if pr.components.method = str "key" then
               match keyIdentifierOk pr.components.identifier with
               | some e => .ok ⟨false, some e, none⟩
               | none => .ok ⟨true, none, none⟩
             else
               if ¬ pr.components.identifier.contains '.' then
                 .ok ⟨false, some (str "did:web identifier must be a valid domain name"), none⟩
               else .ok ⟨true, none, none⟩) := rfl

theorem createDIDKey_ok_inv {hex kt s : JStr} (h : createDIDKey hex kt = .ok s) :
    ∃ k bytes, keyTypeMap kt = some k ∧ hexToBytes hex = .ok bytes ∧
      (expectedLengths k).contains bytes.length = true ∧
      s = str "did:key:" ++ encodeMultibase bytes k := by
  unfold createDIDKey at h
  split at h
  · exact Except.noConfusion h
  · split at h
    · exact Except.noConfusion h
    next k hk =>
      split at h
      next e he => exact Except.noConfusion h
      next bytes hb =>
        split at h
        next e he => exact Except.noConfusion h
        next u hu =>
          injection h with h
          refine ⟨k, bytes, hk, hb, ?_, h.symm⟩
          unfold validateKeyLength at hu
          split at hu
          next hc => exact hc
          next => exact Except.noConfusion hu

theorem keyIdentifierOk_alnum {tail : JStr} (hall : ∀ c ∈ tail, isAlnumCh c = true)
    (hlen : 9 ≤ tail.length) : keyIdentifierOk ('z' :: tail) = none := by
  unfold keyIdentifierOk
  rw [if_neg (List.cons_ne_nil _ _)]
  rw [if_neg (by
    simp only [List.any_cons, Bool.or_eq_true, not_or]
    constructor
    · simp [isBadKeyCh, isJSWs]
    · intro hc
      obtain ⟨c, hc1, hc2⟩ := List.any_eq_true.mp hc
      rw [alnum_not_bad (hall c hc1)] at hc2
      exact Bool.false_ne_true hc2)]
  rw [if_neg (by simp)]
  rw [if_neg (by simp; omega)]

theorem validateDID_key_output {tail : JStr} (hall : ∀ c ∈ tail, isAlnumCh c = true)
    (hlen : 9 ≤ tail.length) :
    validateDID (str "did:key:" ++ 'z' :: tail) = .ok ⟨true, none, none⟩ := by
  have hzall : ∀ c ∈ 'z' :: tail, isAlnumCh c = true := by
    intro c hc
    rcases List.mem_cons.mp hc with rfl | hc
    · decide
    · exact hall c hc
  have hidAll : ∀ c ∈ 'z' :: tail, isIdCh c = true :=
    fun c hc => alnum_isIdCh (hzall c hc)
  have hpre : ∀ c ∈ (str "did:key:" : JStr), isJSWs c = false := by decide
  have hnws : ∀ c ∈ str "did:key:" ++ 'z' :: tail, isJSWs c = false := by
    intro c hc
    rcases List.mem_append.mp hc with hc | hc
    · exact hpre c hc
    · exact alnum_not_ws (hzall c hc)
  have htrim := jsTrim_of_no_ws hnws
  have hshape : (str "did:key:" ++ 'z' :: tail : JStr) =
      str "did:" ++ (str "key" ++ ':' :: (('z' :: tail) ++
        (optPart '/' none ++ (optPart '?' none ++ optPart '#' none)))) := by
    rw [show (str "did:key:" : JStr) = ['d', 'i', 'd', ':', 'k', 'e', 'y', ':'] from rfl,
        show (str "did:" : JStr) = ['d', 'i', 'd', ':'] from rfl,
        show (str "key" : JStr) = ['k', 'e', 'y'] from rfl]
    simp [optPart]
  have hmatch : matchDID (str "did:key:" ++ 'z' :: tail) =
      some ⟨str "key", 'z' :: tail, none, none, none⟩ := by
    rw [hshape]
    exact matchDID_assemble (str "key") ('z' :: tail) none none none (by decide)
      (List.cons_ne_nil _ _) hidAll (by simp) (by simp) (by simp)
  have hddne : (str "did:key:" ++ 'z' :: tail : JStr) ≠ [] := by
    rw [show (str "did:key:" : JStr) = ['d', 'i', 'd', ':', 'k', 'e', 'y', ':'] from rfl]
    simp
  have hq0 : parseQueryParams
      (RawGroups.query ⟨str "key", 'z' :: tail, none, none, none⟩) =
      .ok ([] : List (JStr × JStr)) := rfl
  have hparse := parseDID_of_match hddne htrim hmatch
    (by
      rw [show (str "key" : JStr) = ['k', 'e', 'y'] from rfl]
      simp)
    hq0
  rw [validateDID_eq, hparse]
  have hsup : supportedMethod (str "key") = true := by decide
  simp [hsup, keyIdentifierOk_alnum hall hlen]

/-- C6: `createDIDKey` behaves exactly like the spec pipeline that re-validates its
own output through the grammar validator (the self-check branch can never fire), and
every DID string `createDIDKey` returns is accepted by `validateDID` with no error
and no warnings. -/
theorem claim6_createDIDKey_output_validates :
    (∀ hex kt, createDIDKeyChecked hex kt = createDIDKey hex kt) ∧
    (∀ hex kt s, createDIDKey hex kt = .ok s →
      validateDID s = .ok ⟨true, none, none⟩) := by
  have houtput : ∀ hex kt s, createDIDKey hex kt = .ok s →
      validateDID s = .ok ⟨true, none, none⟩ := by
    intro hex kt s h
    obtain ⟨k, bytes, hk, hb, hlen, hs⟩ := createDIDKey_ok_inv h
    subst hs
    have hbytes32 : 32 ≤ bytes.length := by
      cases k <;> simp [expectedLengths, List.contains] at hlen <;> omega
    have hblt : ∀ b ∈ bytes, b < 256 := hexToBytes_ok_lt hb
    have hshape : encodeMultibase bytes k =
        'z' :: encodeBase58 (encodeVarint (MULTICODEC_CODES k) ++ bytes) := rfl
    rw [hshape]
    set combined := encodeVarint (MULTICODEC_CODES k) ++ bytes with hcomb
    have hcombshape : combined = MULTICODEC_CODES k :: 1 :: bytes := by
      rw [hcomb]
      cases k <;> rfl
    have hcomblt : ∀ b ∈ combined, b < 256 := by
      rw [hcombshape]
      intro b hbm
      rcases List.mem_cons.mp hbm with rfl | hbm
      · cases k <;> simp [MULTICODEC_CODES]
      · rcases List.mem_cons.mp hbm with rfl | hbm
        · omega
        · exact hblt b hbm
    have hvlow : 58 ^ 8 ≤ bytesToNat combined := by
      rw [hcombshape]
      have h1 := bytesToNat_cons_ge (MULTICODEC_CODES k) (1 :: bytes)
      have h2 : (58 : Nat) ^ 8 ≤ MULTICODEC_CODES k * 256 ^ 33 := by
        cases k <;> simp [MULTICODEC_CODES]
      have h3 : (256 : Nat) ^ 33 ≤ 256 ^ (1 :: bytes).length := by
        apply Nat.pow_le_pow_right (by omega)
        simp
        omega
      calc (58 : Nat) ^ 8 ≤ MULTICODEC_CODES k * 256 ^ 33 := h2
      _ ≤ MULTICODEC_CODES k * 256 ^ (1 :: bytes).length :=
          Nat.mul_le_mul_left _ h3
      _ ≤ bytesToNat (MULTICODEC_CODES k :: 1 :: bytes) := h1
    have hvhigh : bytesToNat combined < 58 ^ (2 * combined.length + 1) := by
      have h1 := bytesToNat_lt combined hcomblt
      have h2 : (256 : Nat) ^ combined.length ≤ 58 ^ (2 * combined.length) := by
        calc (256 : Nat) ^ combined.length ≤ (58 ^ 2) ^ combined.length :=
            Nat.pow_le_pow_left (by norm_num) _
        _ = 58 ^ (2 * combined.length) := by
            rw [← Nat.pow_mul, Nat.mul_comm]
      have h3 : (58 : Nat) ^ (2 * combined.length) < 58 ^ (2 * combined.length + 1) :=
        Nat.pow_lt_pow_right (by omega) (by omega)
      omega
    have hb58len : 9 ≤ (encodeBase58 combined).length := by
      have hcombne : combined ≠ [] := by
        rw [hcombshape]
        exact List.cons_ne_nil _ _
      unfold encodeBase58
      rw [if_neg hcombne]
      rw [List.length_append, List.length_map, List.length_map]
      have := base58Digits_length_ge (2 * combined.length + 1) (bytesToNat combined) 8
        hvhigh hvlow
      omega
    exact validateDID_key_output (fun c hc => encodeBase58_alnum hc) hb58len
  constructor
  · intro hex kt
    rcases hck : createDIDKey hex kt with e | s
    · simp [createDIDKeyChecked, hck]
    · simp [createDIDKeyChecked, hck, houtput hex kt s hck]
  · exact houtput

theorem claim6_createDIDKey_output_validates_witness :
    validateDID (str "did:key:z6MktwupdmLXVVqTzCw4i46r4uGyosGXRnR3XjN4Zq7oMMsw") =
      .ok ⟨true, none, none⟩ :=
  claim6_createDIDKey_output_validates.2
    (str "d75a980182b10ab7d54bfed3c964073a0ee172f3daa62325af021a68f707511a")
    (str "ed25519-pub")
    (str "did:key:z6MktwupdmLXVVqTzCw4i46r4uGyosGXRnR3XjN4Zq7oMMsw")
    (by decide)

/-! ### Length gate (C8) and the unreachable error branch (C10) -/

theorem hexToBytes_nil : hexToBytes [] = .error (.didErr (str "Invalid hexadecimal format")) := by
  rfl

/-- C8: for every valid hex input and canonical key type, `createDIDKey` succeeds
exactly when the decoded byte length is in the permitted set ({32} for ed25519-pub,
{33, 65} for secp256k1-pub, {32} for x25519-pub), and otherwise throws the
`DIDError` whose message names the key type, the expected lengths and the actual
length. -/
theorem claim8_length_gate (hex ktStr : JStr) (k : KeyType) (bytes : List Nat)
    (hk : keyTypeMap ktStr = some k) (hb : hexToBytes hex = .ok bytes) :
    ((∃ s, createDIDKey hex ktStr = .ok s) ↔
      (expectedLengths k).contains bytes.length = true) ∧
    ((expectedLengths k).contains bytes.length = false →
      createDIDKey hex ktStr = .error (.didErr (lengthErrMsg k bytes.length))) := by
  have hhne : hex ≠ [] := by
    intro he
    rw [he, hexToBytes_nil] at hb
    exact Except.noConfusion hb
  have hckey : createDIDKey hex ktStr =
      (match validateKeyLength bytes k with
       | .error e => .error e
       | .ok _ => .ok (str "did:key:" ++ encodeMultibase bytes k)) := by
    unfold createDIDKey
    rw [if_neg hhne, hk, hb]
  constructor
  · constructor
    · rintro ⟨s, hs⟩
      rw [hckey] at hs
      by_cases hc : (expectedLengths k).contains bytes.length = true
      · exact hc
      · unfold validateKeyLength at hs
        rw [if_neg hc] at hs
        simp at hs
    · intro hc
      rw [hckey]
      unfold validateKeyLength
      rw [if_pos hc]
      exact ⟨_, rfl⟩
  · intro hc
    rw [hckey]
    unfold validateKeyLength
    rw [if_neg (by rw [hc]; exact Bool.false_ne_true)]

theorem claim8_length_gate_witness :
    (¬ ∃ s, createDIDKey (str "00") (str "ed25519-pub") = .ok s) ∧
    createDIDKey (str "00") (str "ed25519-pub") =
      .error (.didErr (lengthErrMsg .ed25519 1)) := by
  have h := claim8_length_gate (str "00") (str "ed25519-pub") .ed25519 [0]
    (by decide) (by decide)
  constructor
  · intro hs
    have := h.1.mp hs
    rw [show ([0] : List Nat).length = 1 from rfl] at this
    exact absurd this (by decide)
  · have := h.2 (by decide)
    rw [show ([0] : List Nat).length = 1 from rfl] at this
    exact this

theorem keyIdentifierOk_error {id : JStr} {e : JStr} (hid : id ≠ [])
    (h : keyIdentifierOk id = some e) : e = str "Invalid did:key identifier format" := by
  unfold keyIdentifierOk at h
  rw [if_neg hid] at h
  split at h
  · injection h with h
    exact h.symm
  · split at h
    · injection h with h
      exact h.symm
    · split at h
      · injection h with h
        exact h.symm
      · exact Option.noConfusion h

theorem parseDID_invalid_msgs {d : JStr} {pr : DIDParseResult}
    (h : parseDID d = .ok pr) (hval : pr.isValid = false) :
    pr.error = some (str "DID must be a non-empty string") ∨
    pr.error = some (str "Empty DID string is invalid") ∨
    pr.error = some (str "Invalid DID format - must match scheme:method:identifier pattern") ∨
    pr.error = some (str "DID method and identifier cannot be empty") := by
  rw [parseDID_eq] at h
  split at h
  · injection h with h
    rw [← h]
    exact Or.inl rfl
  · split at h
    · injection h with h
      rw [← h]
      exact Or.inr (Or.inl rfl)
    · split at h
      · injection h with h
        rw [← h]
        exact Or.inr (Or.inr (Or.inl rfl))
      · split at h
        · injection h with h
          rw [← h]
          exact Or.inr (Or.inr (Or.inr rfl))
        · split at h
          · exact Except.noConfusion h
          · injection h with h
            rw [← h] at hval
            simp at hval

/-- C10: the `Empty did:key identifier` branch of `validateDID` is unreachable —
`validateDID` never returns that error, because the regex group `([^/?#]+)` forces
every successfully parsed identifier to be non-empty. -/
theorem claim10_no_empty_didkey_identifier_error (x : JStr) (r : DIDValidationResult)
    (h : validateDID x = .ok r) : r.error ≠ some (str "Empty did:key identifier") := by
  rw [validateDID_eq] at h
  split at h
  · exact Except.noConfusion h
  next pr hpr =>
    by_cases hval : pr.isValid = false
    · rw [if_pos hval] at h
      injection h with h
      rw [← h]
      show pr.error ≠ some (str "Empty did:key identifier")
      rcases parseDID_invalid_msgs hpr hval with hm | hm | hm | hm <;> rw [hm] <;> decide
    · rw [if_neg hval] at h
      have hvtrue : pr.isValid = true := by
        cases hh : pr.isValid
        · exact absurd hh hval
        · rfl
      obtain ⟨g, qlist, hg, hq, hpr2⟩ := parseDID_ok_valid_inv hpr hvtrue
      obtain ⟨_, _, _, _, _, _, hmf, hidne, _, _, _, _⟩ := matchDID_inv hg
      have hidcomp : pr.components.identifier = g.identifier := by
        rw [hpr2]
      split at h
      · split at h
        · injection h with h
          rw [← h]
          simp
        next hmfx =>
          exfalso
          apply hmfx
          have : pr.components.method = g.method := by rw [hpr2]
          rw [this]
          exact hmf
      · split at h
        · split at h
          next e2 he2 =>
            injection h with h
            rw [← h]
            have hmsg := keyIdentifierOk_error (hidcomp ▸ hidne) he2
            subst hmsg
            show some (str "Invalid did:key identifier format") ≠ _
            decide
          next =>
            injection h with h
            rw [← h]
            simp
        · split at h
          · injection h with h
            rw [← h]
            show some (str "did:web identifier must be a valid domain name") ≠ _
            decide
          · injection h with h
            rw [← h]
            simp

theorem claim10_no_empty_didkey_identifier_error_witness :
    (⟨true, none, none⟩ : DIDValidationResult).error ≠
      some (str "Empty did:key identifier") :=
  claim10_no_empty_didkey_identifier_error (str "did:key:zabcdefghij")
    ⟨true, none, none⟩ (by decide)

/-! ### extractMethod / extractIdentifier agreement (C7) -/

/-- C7, amended: `extractMethod` and `extractIdentifier` agree with the parsed
components on every input that is already trimmed and that `parseDID` accepts; the
counterexample shows they disagree (returning `null`) on untrimmed inputs that
`parseDID` accepts after trimming. -/
theorem claim7_extract_agrees_on_trimmed (d : JStr) (r : DIDParseResult)
    (ht : jsTrim d = d) (h : parseDID d = .ok r) (hv : r.isValid = true) :
    extractMethod d = some r.components.method ∧
    extractIdentifier d = some r.components.identifier := by
  obtain ⟨g, qlist, hg, hq, hr⟩ := parseDID_ok_valid_inv h hv
  rw [ht] at hg
  obtain ⟨rest, r2, hseq, htw, hdw, hid, hmf, hidne, _, _, _, _⟩ := matchDID_inv hg
  subst hseq
  have hmne : rest.takeWhile isMethodCh ≠ [] := by
    rw [htw]
    exact methodFormat_ne_nil hmf
  have hidne2 : r2.takeWhile isIdCh ≠ [] := by
    rw [hid]
    exact hidne
  have hexm : extractMethod ('d' :: 'i' :: 'd' :: ':' :: rest) =
      (if rest.takeWhile isMethodCh = [] then none
       else
         match rest.dropWhile isMethodCh with
         | ':' :: _ => some (rest.takeWhile isMethodCh)
         | _ => none) := rfl
  have hexi : extractIdentifier ('d' :: 'i' :: 'd' :: ':' :: rest) =
      (if rest.takeWhile isMethodCh = [] then none
       else
         match rest.dropWhile isMethodCh with
         | ':' :: r2 =>
           if r2.takeWhile isIdCh = [] then none else some (r2.takeWhile isIdCh)
         | _ => none) := rfl
  constructor
  · rw [hexm, if_neg hmne, hdw]
    show some (rest.takeWhile isMethodCh) = some r.components.method
    rw [htw, hr]
  · rw [hexi, if_neg hmne, hdw]
    show (if r2.takeWhile isIdCh = [] then none else some (r2.takeWhile isIdCh)) =
      some r.components.identifier
    rw [if_neg hidne2, hid, hr]

theorem claim7_extract_agrees_on_trimmed_witness :
    extractMethod (str "did:key:zabcdefghij") = some (str "key") ∧
    extractIdentifier (str "did:key:zabcdefghij") = some (str "zabcdefghij") :=
  claim7_extract_agrees_on_trimmed (str "did:key:zabcdefghij")
    ⟨str "did:key:zabcdefghij",
     ⟨str "key", str "zabcdefghij", none, none, none⟩, true, none⟩
    (by decide) (by decide) (by decide)

/-! ### isDID / validateDID agreement (C5) -/

theorem isDID_eq (did : JStr) :
    isDID did =
      (if did = [] then false
       else
         match matchDID (jsTrim did) with
         | none => false
         | some g =>
           if g.method = [] ∨ g.identifier = [] then false
           else
             if ¬ supportedMethod g.method then methodFormat g.method
             else
               if g.method = str "key" then
                 (g.identifier.headD ' ' = 'z' : Bool) &&
                 !(g.identifier.any isBadKeyCh) && !(g.identifier.length < 10)
               else g.identifier.contains '.') := rfl

theorem keyIdentifierOk_none_iff {id : JStr} (hid : id ≠ []) :
    ((id.headD ' ' = 'z' : Bool) && !(id.any isBadKeyCh) && !(id.length < 10)) =
      (keyIdentifierOk id).isNone := by
  unfold keyIdentifierOk
  rw [if_neg hid]
  by_cases h1 : id.any isBadKeyCh = true
  · rw [if_pos h1, h1]
    simp
  · rw [if_neg h1]
    have h1f : id.any isBadKeyCh = false := Bool.eq_false_iff.mpr h1
    rw [h1f]
    by_cases h2 : id.headD ' ' = 'z'
    · rw [if_neg (not_not_intro h2), decide_eq_true h2]
      by_cases h3 : id.length < 10
      · rw [if_pos h3, decide_eq_true h3]
        rfl
      · rw [if_neg h3, decide_eq_false h3]
        rfl
    · rw [if_pos h2, decide_eq_false h2]
      rfl

/-- C5, amended: whenever `validateDID` actually returns a result (its query
percent-decoding does not throw), `isDID` agrees with that verdict; the
counterexample shows the two diverge when `validateDID` throws a `URIError`. -/
theorem claim5_isDID_eq_validateDID (x : JStr) (r : DIDValidationResult)
    (h : validateDID x = .ok r) : isDID x = r.isValid := by
  rw [validateDID_eq] at h
  split at h
  · exact Except.noConfusion h
  next pr hpr =>
    rw [isDID_eq]
    by_cases hx : x = []
    · rw [if_pos hx]
      rw [parseDID_eq, if_pos hx] at hpr
      injection hpr with hpr
      rw [← hpr] at h
      rw [if_pos rfl] at h
      injection h with h
      rw [← h]
    · rw [if_neg hx]
      rw [parseDID_eq, if_neg hx] at hpr
      by_cases htr : jsTrim x = []
      · rw [if_pos htr] at hpr
        injection hpr with hpr
        rw [← hpr] at h
        rw [if_pos rfl] at h
        injection h with h
        rw [← h, htr]
        rfl
      · rw [if_neg htr] at hpr
        rcases hmg : matchDID (jsTrim x) with _ | g
        · rw [hmg] at hpr
          injection hpr with hpr
          rw [← hpr] at h
          rw [if_pos rfl] at h
          injection h with h
          rw [← h]
        · obtain ⟨_, _, _, _, _, _, hmf, hidne, _, _, _, _⟩ := matchDID_inv hmg
          have hmne : g.method ≠ [] := methodFormat_ne_nil hmf
          show (if g.method = [] ∨ g.identifier = [] then false
            else
              if ¬ supportedMethod g.method then methodFormat g.method
              else
                if g.method = str "key" then
                  (g.identifier.headD ' ' = 'z' : Bool) &&
                  !(g.identifier.any isBadKeyCh) && !(g.identifier.length < 10)
                else g.identifier.contains '.') = r.isValid
          rw [hmg] at hpr
          have hpr2 : (if g.method = [] ∨ g.identifier = [] then
              Except.ok { did := jsTrim x, components := emptyComponents,
                          isValid := false,
                          error := some (str "DID method and identifier cannot be empty") }
            else
              match parseQueryParams g.query with
              | Except.error e => Except.error e
              | Except.ok qlist =>
                Except.ok { did := jsTrim x,
                            components := { method := g.method, identifier := g.identifier,
                                            path := optNonempty g.path,
                                            query := if qlist = [] then none else some qlist,
                                            fragment := optNonempty g.fragment },
                            isValid := true, error := none }) = Except.ok pr := hpr
          rw [if_neg (by simp [hmne, hidne])]
          rw [if_neg (by simp [hmne, hidne])] at hpr2
          rcases hqp : parseQueryParams g.query with e | qlist <;> rw [hqp] at hpr2
          · exact Except.noConfusion hpr2
          · injection hpr2 with hpr
            have hprv : pr.isValid = true := by rw [← hpr]
            have hprm : pr.components.method = g.method := by rw [← hpr]
            have hpri : pr.components.identifier = g.identifier := by rw [← hpr]
            rw [hprv, if_neg (by simp)] at h
            rw [hprm, hpri] at h
            by_cases hsup : supportedMethod g.method = true
            · rw [if_neg (not_not_intro hsup)] at h ⊢
              by_cases hkey : g.method = str "key"
              · rw [if_pos hkey] at h ⊢
                rcases hko : keyIdentifierOk g.identifier with _ | e <;> rw [hko] at h
                · injection h with h
                  rw [← h]
                  rw [keyIdentifierOk_none_iff hidne, hko]
                  rfl
                · injection h with h
                  rw [← h]
                  rw [keyIdentifierOk_none_iff hidne, hko]
                  rfl
              · rw [if_neg hkey] at h ⊢
                by_cases hdot : g.identifier.contains '.' = true
                · rw [if_neg (not_not_intro hdot)] at h
                  injection h with h
                  rw [← h]
                  exact hdot
                · rw [if_pos (by simpa using hdot)] at h
                  injection h with h
                  rw [← h]
                  exact Bool.eq_false_iff.mpr hdot
            · rw [if_pos (by simpa using hsup)] at h ⊢
              by_cases hfmt : methodFormat g.method = true
              · rw [if_pos hfmt] at h
                injection h with h
                rw [← h]
                exact hfmt
              · rw [if_neg hfmt] at h
                injection h with h
                rw [← h]
                exact Bool.eq_false_iff.mpr hfmt

theorem claim5_isDID_eq_validateDID_witness :
    isDID (str "did:key:zabcdefghij") = true :=
  claim5_isDID_eq_validateDID (str "did:key:zabcdefghij")
    ⟨true, none, none⟩ (by decide)

end DID
